import Mathlib

/-!
# dec128: arithmetic and rounding engine

A shallow embedding of `arithmetic.go` and `rounding.go`.

* Machine integers are natural numbers; the two 64-bit words of a coefficient
  are kept apart (`Lo`, `Hi`) and `Uint128.WF` says both fit their word.
* The `state` package, the unsigned 128-bit primitive, the powers-of-ten table
  and the constants `Zero` and `One` are declared outside the two source files;
  they are modelled from the specification and marked as such.
* The helpers `tryAdd`, `trySub`, `tryMul`, `tryDiv`, `tryQuoRem`, `trySqrt`,
  `Equal` and `Canonical` are not part of the two source files either; the
  operators take them as a parameter (`Kernel`), so every statement about an
  operator holds whatever these helpers compute. Only commutativity of `Add`
  depends on what `tryAdd` computes; for it `tryAdd` and `Canonical` are
  modelled from the specification (`specKernel`).
* The power argument of `PowInt` is a 64-bit `int`; its negation wraps around.
  `PowInt` carries a bound on the depth of nested calls, `none` standing for a
  call that has not returned within the bound.
* An index outside the powers-of-ten table stops a Go program; the rounding
  functions therefore return an `Option`, `none` standing for that stop.
-/

namespace dec128

/-! ## Sentinel state -/

/-- Modelled from the spec: the `state` package is not among the sources. The
markers are totally ordered, the two finite markers (positive, the zero value of
the type, and negative) lie strictly below the threshold `Error`, and every
error marker lies at or above it. -/
abbrev State := Nat

namespace state

/-- Modelled from the spec: marker of a finite positive value (Go zero value). -/
def Default : State := 0

/-- Modelled from the spec: marker of a finite negative value. -/
def Neg : State := 1

/-- Modelled from the spec: the error threshold. -/
def Error : State := 2

/-- Modelled from the spec: not-a-number marker. -/
def NaN : State := 3

/-- Modelled from the spec: division-by-zero marker. -/
def DivisionByZero : State := 4

/-- Modelled from the spec: overflow marker. -/
def Overflow : State := 5

/-- Modelled from the spec: negative-square-root marker. -/
def SqrtNegative : State := 6

end state

/-! ## Coefficient primitive -/

/-- Unsigned 128-bit integer as two 64-bit words (`q.Lo` is read by `RoundBank`). -/
structure Uint128 where
  Lo : Nat
  Hi : Nat
deriving DecidableEq

namespace Uint128

/-- Both words fit in 64 bits. -/
def WF (u : Uint128) : Prop := u.Lo < 2 ^ 64 ∧ u.Hi < 2 ^ 64

instance (u : Uint128) : Decidable u.WF := by
  unfold WF
  exact inferInstance

/-- The number a coefficient stands for. -/
def toNat (u : Uint128) : Nat := u.Hi * 2 ^ 64 + u.Lo

/-- The coefficient holding the low 128 bits of a number. -/
def ofNat (n : Nat) : Uint128 := ⟨n % 2 ^ 64, n / 2 ^ 64 % 2 ^ 64⟩

/-- Modelled from the spec: the zero test of the coefficient primitive. -/
def IsZero (u : Uint128) : Bool := u.Lo == 0 && u.Hi == 0

/-- Modelled from the spec: division with remainder by a 64-bit divisor,
returning quotient, remainder and an error marker (set for a zero divisor). -/
def QuoRem64 (u : Uint128) (d : Nat) : Uint128 × Nat × State :=
  if d = 0 then (⟨0, 0⟩, 0, state.DivisionByZero)
  else (ofNat (u.toNat / d), u.toNat % d, state.Default)

/-- Modelled from the spec: addition of a 64-bit number with carry detection;
a carry out of 128 bits degrades to the Overflow marker. -/
def Add64 (u : Uint128) (x : Nat) : Uint128 × State :=
  if 2 ^ 128 ≤ u.toNat + x then (⟨0, 0⟩, state.Overflow)
  else (ofNat (u.toNat + x), state.Default)

end Uint128

/-! ## Decimal value -/

/-- The decimal value: coefficient, exponent (an 8-bit scale) and state. -/
structure Dec128 where
  coef : Uint128
  exp : Nat
  state : State
deriving DecidableEq

/-- The Go literal `Dec128{state: s}`: all other fields hold their zero value. -/
def Dec128.ofState (s : State) : Dec128 := ⟨⟨0, 0⟩, 0, s⟩

/-- Modelled from the spec: the constant `Zero` (positive, exponent 0, coefficient 0). -/
def Zero : Dec128 := ⟨⟨0, 0⟩, 0, state.Default⟩

/-- Modelled from the spec: the constant `One` (positive, exponent 0, coefficient 1). -/
def One : Dec128 := ⟨⟨1, 0⟩, 0, state.Default⟩

/-- Modelled from the spec: the powers-of-ten table, indexed by exponent. Its
declaration is not among the sources; its entries are 64-bit words, and
`10 ^ 19` is the largest power of ten below `2 ^ 64`. -/
def Pow10Uint64 : List Nat :=
  [1, 10, 100, 1000, 10000, 100000, 1000000, 10000000, 100000000, 1000000000,
   10000000000, 100000000000, 1000000000000, 10000000000000, 100000000000000,
   1000000000000000, 10000000000000000, 100000000000000000,
   1000000000000000000, 10000000000000000000]

/-- The helpers of the arithmetic engine that the two source files call but do
not define: every attempt returns its result with a success flag. -/
structure Kernel where
  tryAdd : Dec128 → Dec128 → Dec128 × Bool
  trySub : Dec128 → Dec128 → Dec128 × Bool
  tryMul : Dec128 → Dec128 → Dec128 × Bool
  tryDiv : Dec128 → Dec128 → Dec128 × Bool
  tryQuoRem : Dec128 → Dec128 → Dec128 × Dec128 × Bool
  trySqrt : Dec128 → Dec128 × Bool
  Equal : Dec128 → Dec128 → Bool
  Canonical : Dec128 → Dec128

/-- The signed quantity a finite value stands for: `± coefficient * 10 ^ (-exponent)`. -/
def Dec128.toRat (d : Dec128) : ℚ :=
  (if d.state = state.Neg then -1 else 1) * ((d.coef.toNat : ℚ) / (10 : ℚ) ^ d.exp)

/-! ## arithmetic.go -/

/-- Embedding of `Dec128.Add`. -/
def Add (K : Kernel) (self other : Dec128) : Dec128 :=
  if self.state ≥ state.Error then self
  else if other.state ≥ state.Error then other
  else
    let (r, ok) := K.tryAdd self other
    if ok then r
    else
      let (r, ok) := K.tryAdd (K.Canonical self) (K.Canonical other)
      if ok then r
      else Dec128.ofState state.Overflow

/-- Embedding of `Dec128.Sub`. -/
def Sub (K : Kernel) (self other : Dec128) : Dec128 :=
  if self.state ≥ state.Error then self
  else if other.state ≥ state.Error then other
  else
    let (r, ok) := K.trySub self other
    if ok then r
    else
      let (r, ok) := K.trySub (K.Canonical self) (K.Canonical other)
      if ok then r
      else Dec128.ofState state.Overflow

/-- Embedding of `Dec128.Mul`. -/
def Mul (K : Kernel) (self other : Dec128) : Dec128 :=
  if self.state ≥ state.Error then self
  else if other.state ≥ state.Error then other
  else if self.coef.IsZero || other.coef.IsZero then Zero
  else
    let (r, ok) := K.tryMul self other
    if ok then r
    else
      let a := K.Canonical self
      let b := K.Canonical other
      let (r, ok) := K.tryMul a b
      if ok then r
      else Dec128.ofState state.Overflow

/-- Embedding of `Dec128.Div`. -/
def Div (K : Kernel) (self other : Dec128) : Dec128 :=
  if self.state ≥ state.Error then self
  else if other.state ≥ state.Error then other
  else if other.coef.IsZero then Dec128.ofState state.DivisionByZero
  else if self.coef.IsZero then Zero
  else
    let (r, ok) := K.tryDiv self other
    if ok then r
    else
      let a := K.Canonical self
      let b := K.Canonical other
      let (r, ok) := K.tryDiv a b
      if ok then r
      else Dec128.ofState state.Overflow

/-- Embedding of `Dec128.Mod`. -/
def Mod (K : Kernel) (self other : Dec128) : Dec128 :=
  if self.state ≥ state.Error then self
  else if other.state ≥ state.Error then other
  else if other.coef.IsZero then Dec128.ofState state.DivisionByZero
  else if self.coef.IsZero then Zero
  else
    let (_, r, ok) := K.tryQuoRem self other
    if ok then r
    else
      let a := K.Canonical self
      let b := K.Canonical other
      let (_, r, ok) := K.tryQuoRem a b
      if ok then r
      else Dec128.ofState state.Overflow

/-- Embedding of `Dec128.QuoRem`. -/
def QuoRem (K : Kernel) (self other : Dec128) : Dec128 × Dec128 :=
  if self.state ≥ state.Error then (self, self)
  else if other.state ≥ state.Error then (other, other)
  else if other.coef.IsZero then
    (Dec128.ofState state.DivisionByZero, Dec128.ofState state.DivisionByZero)
  else if self.coef.IsZero then (Zero, Zero)
  else
    let (q, r, ok) := K.tryQuoRem self other
    if ok then (q, r)
    else
      let a := K.Canonical self
      let b := K.Canonical other
      let (q, r, ok) := K.tryQuoRem a b
      if ok then (q, r)
      else (Dec128.ofState state.Overflow, Dec128.ofState state.Overflow)

/-- Embedding of `Dec128.Abs`. -/
def Abs (self : Dec128) : Dec128 :=
  if self.state ≥ state.Error then self
  else ⟨self.coef, self.exp, state.Default⟩

/-- Embedding of `Dec128.Neg`. -/
def Neg (self : Dec128) : Dec128 :=
  if self.state ≥ state.Error then self
  else if self.state = state.Neg then ⟨self.coef, self.exp, state.Default⟩
  else ⟨self.coef, self.exp, state.Neg⟩

/-- Embedding of `Dec128.Sqrt`. -/
def Sqrt (K : Kernel) (self : Dec128) : Dec128 :=
  if self.state ≥ state.Error then self
  else if self.coef.IsZero then Zero
  else if self.state = state.Neg then Dec128.ofState state.SqrtNegative
  else if K.Equal self One then One
  else
    let (r, ok) := K.trySqrt self
    if ok then r
    else
      let a := K.Canonical self
      let (r, ok) := K.trySqrt a
      if ok then r
      else Dec128.ofState state.Overflow

/-- The smallest value of the 64-bit Go type `int`. -/
def minInt : Int := -2 ^ 63

/-- The largest value of the 64-bit Go type `int`. -/
def maxInt : Int := 2 ^ 63 - 1

/-- The Go expression `-n` on a 64-bit `int`: the result wraps around, so the
minimum integer is its own negation. -/
def negInt (n : Int) : Int := (-n + 2 ^ 63) % 2 ^ 64 - 2 ^ 63

/-- Embedding of `Dec128.PowInt`. The recursion of the source is not
structural, so the first argument bounds the depth of nested calls and `none`
says that the bound was reached before the call returned. For `n ≥ 2`, where
the last two branches run, `(n & 1) == 0` is `n % 2 = 0` and the truncating
division of Go is `/`. -/
def PowInt (K : Kernel) : Nat → Dec128 → Int → Option Dec128
  | 0, _, _ => none
  | fuel + 1, self, n =>
    if self.state ≥ state.Error then some self
    else if n < 0 then
      match PowInt K fuel self (negInt n) with
      | none => none
      | some r => some (Div K One r)
    else if n = 0 then some One
    else if n = 1 then some self
    else if n % 2 = 0 then PowInt K fuel (Mul K self self) (n / 2)
    else
      match PowInt K fuel (Mul K self self) ((n - 1) / 2) with
      | none => none
      | some r => some (Mul K r self)

/-! ## rounding.go -/

/-- Embedding of `Dec128.RoundDown`. -/
def RoundDown (self : Dec128) (prec : Nat) : Option Dec128 :=
  if self.state ≥ state.Error ∨ prec ≥ self.exp then some self
  else
    match Pow10Uint64[self.exp - prec]? with
    | none => none
    | some factor =>
      let (q, r, s) := self.coef.QuoRem64 factor
      if s ≥ state.Error then some (Dec128.ofState s)
      else if self.state = state.Neg ∧ r > 0 then
        let (q, s) := q.Add64 1
        if s ≥ state.Error then some (Dec128.ofState s)
        else some ⟨q, prec, self.state⟩
      else some ⟨q, prec, self.state⟩

/-- Embedding of `Dec128.RoundUp`. -/
def RoundUp (self : Dec128) (prec : Nat) : Option Dec128 :=
  if self.state ≥ state.Error ∨ prec ≥ self.exp then some self
  else
    match Pow10Uint64[self.exp - prec]? with
    | none => none
    | some factor =>
      let (q, r, s) := self.coef.QuoRem64 factor
      if s ≥ state.Error then some (Dec128.ofState s)
      else if self.state ≠ state.Neg ∧ r > 0 then
        let (q, s) := q.Add64 1
        if s ≥ state.Error then some (Dec128.ofState s)
        else some ⟨q, prec, self.state⟩
      else some ⟨q, prec, self.state⟩

/-- Embedding of `Dec128.Trunc`. -/
def Trunc (self : Dec128) (prec : Nat) : Option Dec128 :=
  if self.state ≥ state.Error ∨ prec ≥ self.exp then some self
  else
    match Pow10Uint64[self.exp - prec]? with
    | none => none
    | some factor =>
      let (q, _, s) := self.coef.QuoRem64 factor
      if s ≥ state.Error then some (Dec128.ofState s)
      else some ⟨q, prec, self.state⟩

/-- Embedding of `Dec128.RoundTowardZero`. -/
def RoundTowardZero (self : Dec128) (prec : Nat) : Option Dec128 :=
  Trunc self prec

/-- Embedding of `Dec128.RoundAwayFromZero`. -/
def RoundAwayFromZero (self : Dec128) (prec : Nat) : Option Dec128 :=
  if self.state ≥ state.Error ∨ prec ≥ self.exp then some self
  else
    match Pow10Uint64[self.exp - prec]? with
    | none => none
    | some factor =>
      let (q, r, s) := self.coef.QuoRem64 factor
      if s ≥ state.Error then some (Dec128.ofState s)
      else if r > 0 then
        let (q, s) := q.Add64 1
        if s ≥ state.Error then some (Dec128.ofState s)
        else some ⟨q, prec, self.state⟩
      else some ⟨q, prec, self.state⟩

/-- Embedding of `Dec128.RoundHalfTowardZero`. -/
def RoundHalfTowardZero (self : Dec128) (prec : Nat) : Option Dec128 :=
  if self.state ≥ state.Error ∨ prec ≥ self.exp then some self
  else
    match Pow10Uint64[self.exp - prec]? with
    | none => none
    | some factor =>
      let half := factor / 2
      let (q, r, s) := self.coef.QuoRem64 factor
      if s ≥ state.Error then some (Dec128.ofState s)
      else if half < r then
        let (q, s) := q.Add64 1
        if s ≥ state.Error then some (Dec128.ofState s)
        else some ⟨q, prec, self.state⟩
      else some ⟨q, prec, self.state⟩

/-- Embedding of `Dec128.RoundHalfAwayFromZero`. -/
def RoundHalfAwayFromZero (self : Dec128) (prec : Nat) : Option Dec128 :=
  if self.state ≥ state.Error ∨ prec ≥ self.exp then some self
  else
    match Pow10Uint64[self.exp - prec]? with
    | none => none
    | some factor =>
      let half := factor / 2
      let (q, r, s) := self.coef.QuoRem64 factor
      if s ≥ state.Error then some (Dec128.ofState s)
      else if half ≤ r then
        let (q, s) := q.Add64 1
        if s ≥ state.Error then some (Dec128.ofState s)
        else some ⟨q, prec, self.state⟩
      else some ⟨q, prec, self.state⟩

/-- Embedding of `Dec128.RoundBank`. -/
def RoundBank (self : Dec128) (prec : Nat) : Option Dec128 :=
  if self.state ≥ state.Error ∨ prec ≥ self.exp then some self
  else
    match Pow10Uint64[self.exp - prec]? with
    | none => none
    | some factor =>
      let half := factor / 2
      let (q, r, s) := self.coef.QuoRem64 factor
      if s ≥ state.Error then some (Dec128.ofState s)
      else if half < r ∨ (half = r ∧ q.Lo % 2 = 1) then
        let (q, s) := q.Add64 1
        if s ≥ state.Error then some (Dec128.ofState s)
        else some ⟨q, prec, self.state⟩
      else some ⟨q, prec, self.state⟩

/-- A kernel whose every attempt reports failure, so that each operator past
its short-circuits falls through to the Overflow marker; it instantiates the
`Kernel` parameter at concrete inputs. -/
def failKernel : Kernel where
  tryAdd := fun _ _ => (Zero, false)
  trySub := fun _ _ => (Zero, false)
  tryMul := fun _ _ => (Zero, false)
  tryDiv := fun _ _ => (Zero, false)
  tryQuoRem := fun _ _ => (Zero, Zero, false)
  trySqrt := fun _ => (Zero, false)
  Equal := fun a b => decide (a = b)
  Canonical := fun d => d

/-- The test `state >= state.Error` as a boolean. -/
def isError (d : Dec128) : Bool := decide (state.Error ≤ d.state)

/-- The computation of `PowInt` with a log: the same branches and the same
calls, returning with the result the values returned by the calls of `Mul`, in
the order in which the calls return. -/
def PowIntTrace (K : Kernel) : Nat → Dec128 → Int → Option (Dec128 × List Dec128)
  | 0, _, _ => none
  | fuel + 1, self, n =>
    if self.state ≥ state.Error then some (self, [])
    else if n < 0 then
      match PowIntTrace K fuel self (negInt n) with
      | none => none
      | some (r, t) => some (Div K One r, t)
    else if n = 0 then some (One, [])
    else if n = 1 then some (self, [])
    else if n % 2 = 0 then
      match PowIntTrace K fuel (Mul K self self) (n / 2) with
      | none => none
      | some (r, t) => some (r, Mul K self self :: t)
    else
      match PowIntTrace K fuel (Mul K self self) ((n - 1) / 2) with
      | none => none
      | some (r, t) => some (Mul K r self, Mul K self self :: (t ++ [Mul K r self]))

/-- Modelled from the spec: the coefficient of a value scaled up to the
exponent `e` (multiplied by the matching power of ten), or `none` when the
scaled coefficient exceeds 128 bits. -/
def scaleCoef (d : Dec128) (e : Nat) : Option Nat :=
  if d.coef.toNat * 10 ^ (e - d.exp) < 2 ^ 128 then some (d.coef.toNat * 10 ^ (e - d.exp))
  else none

/-- Modelled from the spec: the fast attempt of `Add`, which is not among the
sources. Both operands are aligned to the larger exponent; coefficients of
equal sign are added, with failure on a carry out of 128 bits; coefficients of
opposite sign are compared, the smaller is subtracted from the larger and the
result takes the sign of the larger. The spec asks for the correct sign of the
result and does not say which marker a zero difference takes; here it is the
positive one, as in the constant `Zero`. On failure the value returned is not
used. -/
def tryAdd (a b : Dec128) : Dec128 × Bool :=
  match scaleCoef a (max a.exp b.exp), scaleCoef b (max a.exp b.exp) with
  | some ca, some cb =>
    if a.state = b.state then
      if ca + cb < 2 ^ 128 then (⟨Uint128.ofNat (ca + cb), max a.exp b.exp, a.state⟩, true)
      else (Zero, false)
    else if cb < ca then (⟨Uint128.ofNat (ca - cb), max a.exp b.exp, a.state⟩, true)
    else if ca < cb then (⟨Uint128.ofNat (cb - ca), max a.exp b.exp, b.state⟩, true)
    else (⟨Uint128.ofNat 0, max a.exp b.exp, state.Default⟩, true)
  | _, _ => (Zero, false)

/-- Modelled from the spec: the reduction loop of `Canonical` on coefficient
and exponent: while the coefficient is divisible by ten and the exponent is
not zero, divide the one by ten and decrement the other. -/
def canonicalLoop : Nat → Nat → Nat × Nat
  | c, 0 => (c, 0)
  | c, e + 1 => if c % 10 = 0 then canonicalLoop (c / 10) e else (c, e + 1)

/-- Modelled from the spec: `Canonical`, which is not among the sources. Error
values pass through unchanged; a finite value is reduced to its minimal
exponent and keeps its sign. -/
def Canonical (d : Dec128) : Dec128 :=
  if d.state ≥ state.Error then d
  else ⟨Uint128.ofNat (canonicalLoop d.coef.toNat d.exp).1,
    (canonicalLoop d.coef.toNat d.exp).2, d.state⟩

/-- The kernel whose `tryAdd` and `Canonical` are the ones modelled from the
spec; its other attempts report failure. -/
def specKernel : Kernel where
  tryAdd := tryAdd
  trySub := fun _ _ => (Zero, false)
  tryMul := fun _ _ => (Zero, false)
  tryDiv := fun _ _ => (Zero, false)
  tryQuoRem := fun _ _ => (Zero, Zero, false)
  trySqrt := fun _ => (Zero, false)
  Equal := fun a b => decide (a = b)
  Canonical := Canonical

/-! ## Short-circuits of the binary operators -/

/-- C1. Error absorption: when at least one operand carries an error marker,
each of `Add`, `Sub`, `Mul`, `Div`, `Mod` returns the left operand if it is an
error and otherwise the right operand, `QuoRem` returns that operand in both
components, and the operand returned carries an error marker (so the result is
never finite, and the left marker wins when both are errors). -/
theorem binary_error_absorption (K : Kernel) (a b : Dec128)
    (h : state.Error ≤ a.state ∨ state.Error ≤ b.state) :
    Add K a b = (if state.Error ≤ a.state then a else b) ∧
    Sub K a b = (if state.Error ≤ a.state then a else b) ∧
    Mul K a b = (if state.Error ≤ a.state then a else b) ∧
    Div K a b = (if state.Error ≤ a.state then a else b) ∧
    Mod K a b = (if state.Error ≤ a.state then a else b) ∧
    QuoRem K a b =
      ((if state.Error ≤ a.state then a else b), (if state.Error ≤ a.state then a else b)) ∧
    state.Error ≤ (if state.Error ≤ a.state then a else b).state := by
  by_cases ha : state.Error ≤ a.state
  · simp [Add, Sub, Mul, Div, Mod, QuoRem, ha]
  · have hb : state.Error ≤ b.state := h.resolve_left ha
    simp [Add, Sub, Mul, Div, Mod, QuoRem, ha, hb]

/-- Witness for C1: a NaN left operand and an Overflow right operand; every
operator returns the NaN operand. -/
theorem binary_error_absorption_witness :
    Add failKernel (Dec128.ofState state.NaN) (Dec128.ofState state.Overflow)
        = Dec128.ofState state.NaN ∧
    Sub failKernel (Dec128.ofState state.NaN) (Dec128.ofState state.Overflow)
        = Dec128.ofState state.NaN ∧
    Mul failKernel (Dec128.ofState state.NaN) (Dec128.ofState state.Overflow)
        = Dec128.ofState state.NaN ∧
    Div failKernel (Dec128.ofState state.NaN) (Dec128.ofState state.Overflow)
        = Dec128.ofState state.NaN ∧
    Mod failKernel (Dec128.ofState state.NaN) (Dec128.ofState state.Overflow)
        = Dec128.ofState state.NaN ∧
    QuoRem failKernel (Dec128.ofState state.NaN) (Dec128.ofState state.Overflow)
        = (Dec128.ofState state.NaN, Dec128.ofState state.NaN) ∧
    state.Error ≤ (Dec128.ofState state.NaN).state :=
  binary_error_absorption failKernel (Dec128.ofState state.NaN)
    (Dec128.ofState state.Overflow) (Or.inl (by decide))

/-- C2. Division by zero: for finite operands and a divisor with a zero
coefficient (any sign, any exponent), `Div` and `Mod` return the
DivisionByZero marker and `QuoRem` returns it in both components, whatever the
dividend; in particular a zero dividend does not yield `Zero`. -/
theorem division_by_zero (K : Kernel) (a b : Dec128)
    (ha : a.state < state.Error) (hb : b.state < state.Error)
    (hz : b.coef.IsZero = true) :
    Div K a b = Dec128.ofState state.DivisionByZero ∧
    Mod K a b = Dec128.ofState state.DivisionByZero ∧
    QuoRem K a b =
      (Dec128.ofState state.DivisionByZero, Dec128.ofState state.DivisionByZero) ∧
    Div K a b ≠ Zero ∧ Mod K a b ≠ Zero := by
  have ha' : ¬ state.Error ≤ a.state := Nat.not_le.mpr ha
  have hb' : ¬ state.Error ≤ b.state := Nat.not_le.mpr hb
  have hne : Dec128.ofState state.DivisionByZero ≠ Zero := by decide
  simp [Div, Mod, QuoRem, ha', hb', hz, hne]

/-- Witness for C2: a negative zero with exponent 3 divided by a negative zero
with exponent 5. -/
theorem division_by_zero_witness :
    Div failKernel ⟨⟨0, 0⟩, 3, state.Neg⟩ ⟨⟨0, 0⟩, 5, state.Neg⟩
        = Dec128.ofState state.DivisionByZero ∧
    Mod failKernel ⟨⟨0, 0⟩, 3, state.Neg⟩ ⟨⟨0, 0⟩, 5, state.Neg⟩
        = Dec128.ofState state.DivisionByZero ∧
    QuoRem failKernel ⟨⟨0, 0⟩, 3, state.Neg⟩ ⟨⟨0, 0⟩, 5, state.Neg⟩
        = (Dec128.ofState state.DivisionByZero, Dec128.ofState state.DivisionByZero) ∧
    Div failKernel ⟨⟨0, 0⟩, 3, state.Neg⟩ ⟨⟨0, 0⟩, 5, state.Neg⟩ ≠ Zero ∧
    Mod failKernel ⟨⟨0, 0⟩, 3, state.Neg⟩ ⟨⟨0, 0⟩, 5, state.Neg⟩ ≠ Zero :=
  division_by_zero failKernel ⟨⟨0, 0⟩, 3, state.Neg⟩ ⟨⟨0, 0⟩, 5, state.Neg⟩
    (by decide) (by decide) (by decide)

/-- C3. Zero short-circuit: for finite operands, `Mul` returns exactly `Zero`
when either coefficient is zero, and `Div`, `Mod` and both components of
`QuoRem` are exactly `Zero` when the dividend has a zero coefficient and the
divisor a nonzero one; `Zero` is positive with exponent 0, so the sign and
exponent of the zero operand never reach the result. -/
theorem zero_short_circuit (K : Kernel) (a b : Dec128)
    (ha : a.state < state.Error) (hb : b.state < state.Error) :
    ((a.coef.IsZero = true ∨ b.coef.IsZero = true) → Mul K a b = Zero) ∧
    (a.coef.IsZero = true → b.coef.IsZero = false →
      Div K a b = Zero ∧ Mod K a b = Zero ∧ QuoRem K a b = (Zero, Zero)) ∧
    Zero = ⟨⟨0, 0⟩, 0, state.Default⟩ := by
  have ha' : ¬ state.Error ≤ a.state := Nat.not_le.mpr ha
  have hb' : ¬ state.Error ≤ b.state := Nat.not_le.mpr hb
  refine ⟨?_, ?_, rfl⟩
  · intro h
    rcases h with h | h <;> simp [Mul, ha', hb', h]
  · intro h1 h2
    simp [Div, Mod, QuoRem, ha', hb', h1, h2]

/-- Witness for C3: a negative zero with exponent 5 against the finite 0.07. -/
theorem zero_short_circuit_witness :
    Mul failKernel ⟨⟨0, 0⟩, 5, state.Neg⟩ ⟨⟨7, 0⟩, 2, state.Default⟩ = Zero ∧
    Mul failKernel ⟨⟨7, 0⟩, 2, state.Default⟩ ⟨⟨0, 0⟩, 5, state.Neg⟩ = Zero ∧
    Div failKernel ⟨⟨0, 0⟩, 5, state.Neg⟩ ⟨⟨7, 0⟩, 2, state.Default⟩ = Zero ∧
    Mod failKernel ⟨⟨0, 0⟩, 5, state.Neg⟩ ⟨⟨7, 0⟩, 2, state.Default⟩ = Zero ∧
    QuoRem failKernel ⟨⟨0, 0⟩, 5, state.Neg⟩ ⟨⟨7, 0⟩, 2, state.Default⟩ = (Zero, Zero) :=
  ⟨(zero_short_circuit failKernel ⟨⟨0, 0⟩, 5, state.Neg⟩ ⟨⟨7, 0⟩, 2, state.Default⟩
      (by decide) (by decide)).1 (Or.inl (by decide)),
   (zero_short_circuit failKernel ⟨⟨7, 0⟩, 2, state.Default⟩ ⟨⟨0, 0⟩, 5, state.Neg⟩
      (by decide) (by decide)).1 (Or.inr (by decide)),
   (zero_short_circuit failKernel ⟨⟨0, 0⟩, 5, state.Neg⟩ ⟨⟨7, 0⟩, 2, state.Default⟩
      (by decide) (by decide)).2.1 (by decide) (by decide)⟩

theorem Pow10Uint64_get (i : Nat) (h : i < 20) : Pow10Uint64[i]? = some (10 ^ i) := by
  interval_cases i <;> rfl

theorem Uint128.toNat_lt (u : Uint128) (h : u.WF) : u.toNat < 2 ^ 128 := by
  unfold Uint128.WF at h
  unfold Uint128.toNat
  omega

theorem Uint128.toNat_ofNat (n : Nat) (h : n < 2 ^ 128) : (Uint128.ofNat n).toNat = n := by
  unfold Uint128.toNat Uint128.ofNat
  simp only
  omega

theorem Uint128.ofNat_WF (n : Nat) : (Uint128.ofNat n).WF := by
  unfold Uint128.WF Uint128.ofNat
  simp only
  omega

theorem Uint128.ofNat_Lo_parity (n : Nat) : (Uint128.ofNat n).Lo % 2 = n % 2 := by
  unfold Uint128.ofNat
  simp only
  omega

theorem Uint128.QuoRem64_pow10 (u : Uint128) (k : Nat) :
    u.QuoRem64 (10 ^ k) = (Uint128.ofNat (u.toNat / 10 ^ k), u.toNat % 10 ^ k, state.Default) := by
  have h : (10 : Nat) ^ k ≠ 0 := by positivity
  simp [Uint128.QuoRem64, h]

theorem Uint128.Add64_quot (c f : Nat) (hc : c < 2 ^ 128) (hf : 10 ≤ f) :
    (Uint128.ofNat (c / f)).Add64 1 = (Uint128.ofNat (c / f + 1), state.Default) := by
  have hq : c / f ≤ c / 10 := Nat.div_le_div_left hf (by norm_num)
  have hq2 : c / f < 2 ^ 128 := by omega
  have hlt : ¬ (2 ^ 128 ≤ c / f + 1) := by omega
  simp only [Uint128.Add64, Uint128.toNat_ofNat _ hq2, hlt, if_false]

theorem ten_le_pow10 (k : Nat) (hk : 0 < k) : 10 ≤ 10 ^ k := by
  calc 10 = 10 ^ 1 := by norm_num
    _ ≤ 10 ^ k := Nat.pow_le_pow_right (by norm_num) hk

theorem round_guard (v : Dec128) (p : Nat) (hfin : v.state < state.Error) (hp : p < v.exp) :
    ¬ (v.state ≥ state.Error ∨ p ≥ v.exp) := by
  intro h
  rcases h with h | h
  · exact absurd h (Nat.not_le.mpr hfin)
  · exact absurd h (Nat.not_le.mpr hp)

theorem default_not_error : ¬ (state.Default ≥ state.Error) := by decide

theorem RoundDown_eq (v : Dec128) (p : Nat) (hwf : v.coef.WF) (hfin : v.state < state.Error)
    (he : v.exp < Pow10Uint64.length) (hp : p < v.exp) :
    RoundDown v p = some ⟨Uint128.ofNat (v.coef.toNat / 10 ^ (v.exp - p) +
      (if v.state = state.Neg ∧ 0 < v.coef.toNat % 10 ^ (v.exp - p) then 1 else 0)), p, v.state⟩ := by
  have hlen : Pow10Uint64.length = 20 := rfl
  have hi : v.exp - p < 20 := by omega
  have hc := Uint128.toNat_lt v.coef hwf
  have hf := ten_le_pow10 (v.exp - p) (by omega)
  unfold RoundDown
  rw [if_neg (round_guard v p hfin hp), Pow10Uint64_get _ hi]
  simp only [Uint128.QuoRem64_pow10, Uint128.Add64_quot _ _ hc hf, default_not_error, if_false]
  split_ifs with h1 <;> simp

theorem floor_quot (c f : ℕ) : ⌊((c : ℚ) / (f : ℚ))⌋ = ((c / f : ℕ) : ℤ) := by
  rw [Rat.floor_natCast_div_natCast]
  simp

theorem ceil_quot (c f : ℕ) (hf : 0 < f) :
    ⌈((c : ℚ) / (f : ℚ))⌉ = ((c / f + (if 0 < c % f then 1 else 0) : ℕ) : ℤ) := by
  have hfq : (0 : ℚ) < (f : ℚ) := by exact_mod_cast hf
  have hdm : f * (c / f) + c % f = c := Nat.div_add_mod c f
  have hr : c % f < f := Nat.mod_lt c hf
  generalize c / f = q at hdm ⊢
  generalize c % f = r at hdm hr ⊢
  have hdmq : (f : ℚ) * (q : ℚ) + (r : ℚ) = (c : ℚ) := by exact_mod_cast hdm
  have hrq : (r : ℚ) < (f : ℚ) := by exact_mod_cast hr
  rw [Int.ceil_eq_iff, lt_div_iff₀ hfq, div_le_iff₀ hfq]
  split_ifs with h
  · have hrp : (0 : ℚ) < (r : ℚ) := by exact_mod_cast h
    push_cast
    constructor <;> nlinarith
  · have hz : r = 0 := by omega
    subst hz
    push_cast at hdmq ⊢
    constructor <;> nlinarith

theorem RoundUp_eq (v : Dec128) (p : Nat) (hwf : v.coef.WF) (hfin : v.state < state.Error)
    (he : v.exp < Pow10Uint64.length) (hp : p < v.exp) :
    RoundUp v p = some ⟨Uint128.ofNat (v.coef.toNat / 10 ^ (v.exp - p) +
      (if v.state ≠ state.Neg ∧ 0 < v.coef.toNat % 10 ^ (v.exp - p) then 1 else 0)), p, v.state⟩ := by
  have hlen : Pow10Uint64.length = 20 := rfl
  have hi : v.exp - p < 20 := by omega
  have hc := Uint128.toNat_lt v.coef hwf
  have hf := ten_le_pow10 (v.exp - p) (by omega)
  unfold RoundUp
  rw [if_neg (round_guard v p hfin hp), Pow10Uint64_get _ hi]
  simp only [Uint128.QuoRem64_pow10, Uint128.Add64_quot _ _ hc hf, default_not_error, if_false]
  split_ifs with h1 <;> simp

theorem Trunc_eq (v : Dec128) (p : Nat) (hfin : v.state < state.Error)
    (he : v.exp < Pow10Uint64.length) (hp : p < v.exp) :
    Trunc v p = some ⟨Uint128.ofNat (v.coef.toNat / 10 ^ (v.exp - p)), p, v.state⟩ := by
  have hlen : Pow10Uint64.length = 20 := rfl
  have hi : v.exp - p < 20 := by omega
  unfold Trunc
  rw [if_neg (round_guard v p hfin hp), Pow10Uint64_get _ hi]
  simp only [Uint128.QuoRem64_pow10, default_not_error, if_false]

theorem RoundAwayFromZero_eq (v : Dec128) (p : Nat) (hwf : v.coef.WF)
    (hfin : v.state < state.Error) (he : v.exp < Pow10Uint64.length) (hp : p < v.exp) :
    RoundAwayFromZero v p = some ⟨Uint128.ofNat (v.coef.toNat / 10 ^ (v.exp - p) +
      (if 0 < v.coef.toNat % 10 ^ (v.exp - p) then 1 else 0)), p, v.state⟩ := by
  have hlen : Pow10Uint64.length = 20 := rfl
  have hi : v.exp - p < 20 := by omega
  have hc := Uint128.toNat_lt v.coef hwf
  have hf := ten_le_pow10 (v.exp - p) (by omega)
  unfold RoundAwayFromZero
  rw [if_neg (round_guard v p hfin hp), Pow10Uint64_get _ hi]
  simp only [Uint128.QuoRem64_pow10, Uint128.Add64_quot _ _ hc hf, default_not_error, if_false]
  split_ifs with h1 <;> simp

theorem RoundHalfTowardZero_eq (v : Dec128) (p : Nat) (hwf : v.coef.WF)
    (hfin : v.state < state.Error) (he : v.exp < Pow10Uint64.length) (hp : p < v.exp) :
    RoundHalfTowardZero v p = some ⟨Uint128.ofNat (v.coef.toNat / 10 ^ (v.exp - p) +
      (if 10 ^ (v.exp - p) / 2 < v.coef.toNat % 10 ^ (v.exp - p) then 1 else 0)), p, v.state⟩ := by
  have hlen : Pow10Uint64.length = 20 := rfl
  have hi : v.exp - p < 20 := by omega
  have hc := Uint128.toNat_lt v.coef hwf
  have hf := ten_le_pow10 (v.exp - p) (by omega)
  unfold RoundHalfTowardZero
  rw [if_neg (round_guard v p hfin hp), Pow10Uint64_get _ hi]
  simp only [Uint128.QuoRem64_pow10, Uint128.Add64_quot _ _ hc hf, default_not_error, if_false]
  split_ifs with h1 <;> simp

theorem RoundHalfAwayFromZero_eq (v : Dec128) (p : Nat) (hwf : v.coef.WF)
    (hfin : v.state < state.Error) (he : v.exp < Pow10Uint64.length) (hp : p < v.exp) :
    RoundHalfAwayFromZero v p = some ⟨Uint128.ofNat (v.coef.toNat / 10 ^ (v.exp - p) +
      (if 10 ^ (v.exp - p) / 2 ≤ v.coef.toNat % 10 ^ (v.exp - p) then 1 else 0)), p, v.state⟩ := by
  have hlen : Pow10Uint64.length = 20 := rfl
  have hi : v.exp - p < 20 := by omega
  have hc := Uint128.toNat_lt v.coef hwf
  have hf := ten_le_pow10 (v.exp - p) (by omega)
  unfold RoundHalfAwayFromZero
  rw [if_neg (round_guard v p hfin hp), Pow10Uint64_get _ hi]
  simp only [Uint128.QuoRem64_pow10, Uint128.Add64_quot _ _ hc hf, default_not_error, if_false]
  split_ifs with h1 <;> simp

theorem RoundBank_eq (v : Dec128) (p : Nat) (hwf : v.coef.WF)
    (hfin : v.state < state.Error) (he : v.exp < Pow10Uint64.length) (hp : p < v.exp) :
    RoundBank v p = some ⟨Uint128.ofNat (v.coef.toNat / 10 ^ (v.exp - p) +
      (if 10 ^ (v.exp - p) / 2 < v.coef.toNat % 10 ^ (v.exp - p) ∨
          (10 ^ (v.exp - p) / 2 = v.coef.toNat % 10 ^ (v.exp - p) ∧
            (Uint128.ofNat (v.coef.toNat / 10 ^ (v.exp - p))).Lo % 2 = 1)
        then 1 else 0)), p, v.state⟩ := by
  have hlen : Pow10Uint64.length = 20 := rfl
  have hi : v.exp - p < 20 := by omega
  have hc := Uint128.toNat_lt v.coef hwf
  have hf := ten_le_pow10 (v.exp - p) (by omega)
  unfold RoundBank
  rw [if_neg (round_guard v p hfin hp), Pow10Uint64_get _ hi]
  simp only [Uint128.QuoRem64_pow10, Uint128.Add64_quot _ _ hc hf, default_not_error, if_false]
  split_ifs with h1 <;> simp

theorem toRat_scale (v : Dec128) (p : Nat) (hp : p ≤ v.exp) :
    v.toRat * (10 : ℚ) ^ p =
      (if v.state = state.Neg then -1 else 1) *
        ((v.coef.toNat : ℚ) / ((10 ^ (v.exp - p) : ℕ) : ℚ)) := by
  have hsplit : (10 : ℚ) ^ v.exp = (10 : ℚ) ^ (v.exp - p) * (10 : ℚ) ^ p := by
    rw [← pow_add]
    congr 1
    omega
  unfold Dec128.toRat
  rw [hsplit]
  push_cast
  field_simp
  split_ifs <;> ring

theorem toRat_mk (n p : Nat) (s : State) (hn : n < 2 ^ 128) :
    Dec128.toRat ⟨Uint128.ofNat n, p, s⟩ =
      (if s = state.Neg then -1 else 1) * ((n : ℚ) / (10 : ℚ) ^ p) := by
  simp only [Dec128.toRat, Uint128.toNat_ofNat n hn]

theorem quot_succ_lt (c f : Nat) (hc : c < 2 ^ 128) (hf : 10 ≤ f) : c / f + 1 < 2 ^ 128 := by
  have hq : c / f ≤ c / 10 := Nat.div_le_div_left hf (by norm_num)
  omega

/-! ## Rounding rules -/

/-- C4. `RoundDown` is floor: for a finite value whose exponent lies within the
powers-of-ten table and a precision below that exponent, the result is a
finite value with the requested exponent and the sign of the input, its
coefficient is `c div 10^(e-p)` plus one exactly when the input is negative and
`c mod 10^(e-p) > 0`, and its quantity is `floor(V * 10^p) / 10^p`. -/
theorem RoundDown_is_floor (v : Dec128) (p : Nat) (hwf : v.coef.WF)
    (hfin : v.state < state.Error) (he : v.exp < Pow10Uint64.length) (hp : p < v.exp) :
    ∃ r : Dec128, RoundDown v p = some r ∧ r.state = v.state ∧ r.state < state.Error ∧
      r.exp = p ∧ r.coef.WF ∧
      r.coef.toNat = v.coef.toNat / 10 ^ (v.exp - p) +
        (if v.state = state.Neg ∧ 0 < v.coef.toNat % 10 ^ (v.exp - p) then 1 else 0) ∧
      r.toRat = (⌊v.toRat * (10 : ℚ) ^ p⌋ : ℚ) / (10 : ℚ) ^ p := by
  have hc := Uint128.toNat_lt v.coef hwf
  have hf := ten_le_pow10 (v.exp - p) (by omega)
  have hn : v.coef.toNat / 10 ^ (v.exp - p) +
      (if v.state = state.Neg ∧ 0 < v.coef.toNat % 10 ^ (v.exp - p) then 1 else 0) < 2 ^ 128 := by
    have := quot_succ_lt _ _ hc hf
    split_ifs <;> omega
  refine ⟨_, RoundDown_eq v p hwf hfin he hp, rfl, hfin, rfl, Uint128.ofNat_WF _,
    Uint128.toNat_ofNat _ hn, ?_⟩
  rw [toRat_mk _ _ _ hn, toRat_scale v p (le_of_lt hp)]
  by_cases hs : v.state = state.Neg
  · simp only [hs, true_and, if_true, neg_one_mul, Int.floor_neg,
      ceil_quot _ _ (by positivity : 0 < 10 ^ (v.exp - p)), Int.cast_neg, Int.cast_natCast]
    ring
  · simp only [hs, false_and, if_false, one_mul, floor_quot, add_zero, Int.cast_natCast]

theorem pow10_even (k : Nat) (hk : 0 < k) : 10 ^ k % 2 = 0 := by
  obtain ⟨j, rfl⟩ : ∃ j, k = j + 1 := ⟨k - 1, by omega⟩
  rw [Nat.pow_succ]
  omega

theorem nearest_of_half (c f n : ℤ) (hf : 0 < f) (h : |n * f - c| * 2 ≤ f) (m : ℤ) :
    |n * f - c| ≤ |m * f - c| := by
  by_cases hmn : m = n
  · rw [hmn]
  · have h1 : 1 ≤ |m - n| := Int.one_le_abs (sub_ne_zero.mpr hmn)
    have h2 : f ≤ |(m - n) * f| := by
      rw [abs_mul, abs_of_pos hf]
      nlinarith
    have h3 : |(m - n) * f| ≤ |m * f - c| + |n * f - c| := by
      have : (m - n) * f = (m * f - c) - (n * f - c) := by ring
      rw [this]
      exact abs_sub _ _
    linarith

theorem abs_toRat (d : Dec128) : |d.toRat| = (d.coef.toNat : ℚ) / (10 : ℚ) ^ d.exp := by
  have hnn : (0 : ℚ) ≤ (d.coef.toNat : ℚ) / (10 : ℚ) ^ d.exp := by positivity
  unfold Dec128.toRat
  split_ifs
  · rw [neg_one_mul, abs_neg, abs_of_nonneg hnn]
  · rw [one_mul, abs_of_nonneg hnn]

theorem abs_toRat_scale (v : Dec128) (p : Nat) (hp : p ≤ v.exp) :
    |v.toRat| * (10 : ℚ) ^ p = (v.coef.toNat : ℚ) / ((10 ^ (v.exp - p) : ℕ) : ℚ) := by
  have hsplit : (10 : ℚ) ^ v.exp = (10 : ℚ) ^ (v.exp - p) * (10 : ℚ) ^ p := by
    rw [← pow_add]
    congr 1
    omega
  rw [abs_toRat, hsplit]
  push_cast
  field_simp
  ring

theorem abs_toRat_mk (n p : Nat) (s : State) (hn : n < 2 ^ 128) :
    |Dec128.toRat ⟨Uint128.ofNat n, p, s⟩| = (n : ℚ) / (10 : ℚ) ^ p := by
  rw [abs_toRat]
  simp only [Uint128.toNat_ofNat n hn]

/-- Witness for C4: `RoundDown(-1.234, 2) = -1.24` and `RoundDown(1.236, 2) = 1.23`. -/
theorem RoundDown_is_floor_witness :
    (∃ r : Dec128, RoundDown ⟨⟨1234, 0⟩, 3, state.Neg⟩ 2 = some r ∧
      r = ⟨⟨124, 0⟩, 2, state.Neg⟩ ∧
      r.toRat = (⌊Dec128.toRat ⟨⟨1234, 0⟩, 3, state.Neg⟩ * (10 : ℚ) ^ 2⌋ : ℚ) / (10 : ℚ) ^ 2) ∧
    RoundDown ⟨⟨1236, 0⟩, 3, state.Default⟩ 2 = some ⟨⟨123, 0⟩, 2, state.Default⟩ := by
  obtain ⟨r, h1, -, -, -, -, -, h7⟩ := RoundDown_is_floor ⟨⟨1234, 0⟩, 3, state.Neg⟩ 2
    (by decide) (by decide) (by decide) (by decide)
  have hv : RoundDown ⟨⟨1234, 0⟩, 3, state.Neg⟩ 2 = some ⟨⟨124, 0⟩, 2, state.Neg⟩ := by decide
  refine ⟨⟨r, h1, ?_, h7⟩, by decide⟩
  rw [hv] at h1
  exact (Option.some.inj h1).symm

/-- C5. `RoundUp` is ceiling: for a finite value whose exponent lies within the
powers-of-ten table and a precision below that exponent, the result is a
finite value with the requested exponent and the sign of the input, its
coefficient is `c div 10^(e-p)` plus one exactly when the input is not negative
and `c mod 10^(e-p) > 0`, and its quantity is `ceil(V * 10^p) / 10^p`. -/
theorem RoundUp_is_ceil (v : Dec128) (p : Nat) (hwf : v.coef.WF)
    (hfin : v.state < state.Error) (he : v.exp < Pow10Uint64.length) (hp : p < v.exp) :
    ∃ r : Dec128, RoundUp v p = some r ∧ r.state = v.state ∧ r.state < state.Error ∧
      r.exp = p ∧ r.coef.WF ∧
      r.coef.toNat = v.coef.toNat / 10 ^ (v.exp - p) +
        (if v.state ≠ state.Neg ∧ 0 < v.coef.toNat % 10 ^ (v.exp - p) then 1 else 0) ∧
      r.toRat = (⌈v.toRat * (10 : ℚ) ^ p⌉ : ℚ) / (10 : ℚ) ^ p := by
  have hc := Uint128.toNat_lt v.coef hwf
  have hf := ten_le_pow10 (v.exp - p) (by omega)
  have hn : v.coef.toNat / 10 ^ (v.exp - p) +
      (if v.state ≠ state.Neg ∧ 0 < v.coef.toNat % 10 ^ (v.exp - p) then 1 else 0) < 2 ^ 128 := by
    have := quot_succ_lt _ _ hc hf
    split_ifs <;> omega
  refine ⟨_, RoundUp_eq v p hwf hfin he hp, rfl, hfin, rfl, Uint128.ofNat_WF _,
    Uint128.toNat_ofNat _ hn, ?_⟩
  rw [toRat_mk _ _ _ hn, toRat_scale v p (le_of_lt hp)]
  by_cases hs : v.state = state.Neg
  · simp only [hs, ne_eq, not_true_eq_false, false_and, if_true, if_false, neg_one_mul,
      Int.ceil_neg, floor_quot, add_zero, Int.cast_neg, Int.cast_natCast]
    ring
  · simp only [hs, ne_eq, not_false_eq_true, true_and, if_false, one_mul,
      ceil_quot _ _ (by positivity : 0 < 10 ^ (v.exp - p)), Int.cast_natCast]

/-- Witness for C5: `RoundUp(1.234, 2) = 1.24` and `RoundUp(-1.236, 2) = -1.23`. -/
theorem RoundUp_is_ceil_witness :
    (∃ r : Dec128, RoundUp ⟨⟨1234, 0⟩, 3, state.Default⟩ 2 = some r ∧
      r = ⟨⟨124, 0⟩, 2, state.Default⟩ ∧
      r.toRat =
        (⌈Dec128.toRat ⟨⟨1234, 0⟩, 3, state.Default⟩ * (10 : ℚ) ^ 2⌉ : ℚ) / (10 : ℚ) ^ 2) ∧
    RoundUp ⟨⟨1236, 0⟩, 3, state.Neg⟩ 2 = some ⟨⟨123, 0⟩, 2, state.Neg⟩ := by
  obtain ⟨r, h1, -, -, -, -, -, h7⟩ := RoundUp_is_ceil ⟨⟨1234, 0⟩, 3, state.Default⟩ 2
    (by decide) (by decide) (by decide) (by decide)
  have hv : RoundUp ⟨⟨1234, 0⟩, 3, state.Default⟩ 2 = some ⟨⟨124, 0⟩, 2, state.Default⟩ := by
    decide
  refine ⟨⟨r, h1, ?_, h7⟩, by decide⟩
  rw [hv] at h1
  exact (Option.some.inj h1).symm

theorem half_bound_lo (c f : ℕ) (h : 2 * (c % f) ≤ f) :
    |((c / f : ℕ) : ℤ) * (f : ℤ) - (c : ℤ)| * 2 ≤ (f : ℤ) := by
  have hdm : f * (c / f) + c % f = c := Nat.div_add_mod c f
  generalize c / f = q at hdm ⊢
  generalize c % f = r at hdm h ⊢
  have hz : (q : ℤ) * (f : ℤ) - (c : ℤ) = -(r : ℤ) := by
    rw [← hdm]
    push_cast
    ring
  rw [hz, abs_neg, abs_of_nonneg (by positivity)]
  omega

theorem half_bound_hi (c f : ℕ) (hf : 0 < f) (h : f ≤ 2 * (c % f)) :
    |((c / f + 1 : ℕ) : ℤ) * (f : ℤ) - (c : ℤ)| * 2 ≤ (f : ℤ) := by
  have hdm : f * (c / f) + c % f = c := Nat.div_add_mod c f
  have hr : c % f < f := Nat.mod_lt c hf
  generalize c / f = q at hdm ⊢
  generalize c % f = r at hdm h hr ⊢
  have hz : ((q + 1 : ℕ) : ℤ) * (f : ℤ) - (c : ℤ) = (f : ℤ) - (r : ℤ) := by
    rw [← hdm]
    push_cast
    ring
  rw [hz, abs_of_nonneg (by omega)]
  omega

/-- C6. `RoundBank` is round-half-to-even: for a finite value whose exponent
lies within the powers-of-ten table and a precision `p` below that exponent,
with `f = 10^(e-p)`, `q = c div f` and `r = c mod f`, the result has the sign of
the input, exponent `p` and coefficient `q + 1` if `2r > f` or (`2r = f` and `q`
odd), else `q`; that coefficient is an integer nearest to `c / f`
(`|n*f - c| <= f/2`, and no integer is nearer), it is even when `c / f` is
exactly halfway, and the parity of the low word of `q` is the parity of `q`. -/
theorem RoundBank_half_even (v : Dec128) (p : Nat) (hwf : v.coef.WF)
    (hfin : v.state < state.Error) (he : v.exp < Pow10Uint64.length) (hp : p < v.exp) :
    ∃ r : Dec128, RoundBank v p = some r ∧ r.state = v.state ∧ r.exp = p ∧ r.coef.WF ∧
      r.coef.toNat =
        (if 10 ^ (v.exp - p) < 2 * (v.coef.toNat % 10 ^ (v.exp - p)) ∨
            (2 * (v.coef.toNat % 10 ^ (v.exp - p)) = 10 ^ (v.exp - p) ∧
              v.coef.toNat / 10 ^ (v.exp - p) % 2 = 1)
          then v.coef.toNat / 10 ^ (v.exp - p) + 1 else v.coef.toNat / 10 ^ (v.exp - p)) ∧
      |(r.coef.toNat : ℤ) * ((10 ^ (v.exp - p) : ℕ) : ℤ) - (v.coef.toNat : ℤ)| * 2
        ≤ ((10 ^ (v.exp - p) : ℕ) : ℤ) ∧
      (∀ m : ℤ, |(r.coef.toNat : ℤ) * ((10 ^ (v.exp - p) : ℕ) : ℤ) - (v.coef.toNat : ℤ)|
        ≤ |m * ((10 ^ (v.exp - p) : ℕ) : ℤ) - (v.coef.toNat : ℤ)|) ∧
      (2 * (v.coef.toNat % 10 ^ (v.exp - p)) = 10 ^ (v.exp - p) → r.coef.toNat % 2 = 0) ∧
      (Uint128.ofNat (v.coef.toNat / 10 ^ (v.exp - p))).Lo % 2
        = v.coef.toNat / 10 ^ (v.exp - p) % 2 := by
  have hc := Uint128.toNat_lt v.coef hwf
  have hf := ten_le_pow10 (v.exp - p) (by omega)
  have hev := pow10_even (v.exp - p) (by omega)
  have hq := quot_succ_lt _ _ hc hf
  have hlo := half_bound_lo v.coef.toNat (10 ^ (v.exp - p))
  have hhi := half_bound_hi v.coef.toNat (10 ^ (v.exp - p)) (by omega)
  have hpar := Uint128.ofNat_Lo_parity (v.coef.toNat / 10 ^ (v.exp - p))
  have hval : ∀ n : ℕ, n < 2 ^ 128 → (Uint128.ofNat n).toNat = n := Uint128.toNat_ofNat
  have hnear := nearest_of_half (v.coef.toNat : ℤ) ((10 ^ (v.exp - p) : ℕ) : ℤ)
  refine ⟨_, RoundBank_eq v p hwf hfin he hp, rfl, rfl, Uint128.ofNat_WF _, ?_⟩
  simp only [hpar]
  generalize 10 ^ (v.exp - p) = f at *
  generalize v.coef.toNat / f = q at *
  generalize v.coef.toNat % f = r at *
  have hfz : (0 : ℤ) < (f : ℤ) := by exact_mod_cast (by omega : 0 < f)
  by_cases hcond : f / 2 < r ∨ (f / 2 = r ∧ q % 2 = 1)
  · have hcond' : f < 2 * r ∨ (2 * r = f ∧ q % 2 = 1) := by omega
    have hb := hhi (by omega)
    simp only [hcond, hcond', if_true, hval (q + 1) hq]
    exact ⟨trivial, hb, fun m => hnear _ hfz hb m, by omega, trivial⟩
  · have hcond' : ¬ (f < 2 * r ∨ (2 * r = f ∧ q % 2 = 1)) := by omega
    have hb := hlo (by omega)
    simp only [hcond, hcond', if_false, add_zero, hval q (by omega)]
    exact ⟨trivial, hb, fun m => hnear _ hfz hb m, by omega, trivial⟩

/-- Witness for C6: `RoundBank(2.125, 2)` has coefficient 212 and
`RoundBank(2.135, 2)` has coefficient 214. -/
theorem RoundBank_half_even_witness :
    (∃ r : Dec128, RoundBank ⟨⟨2125, 0⟩, 3, state.Default⟩ 2 = some r ∧
      r = ⟨⟨212, 0⟩, 2, state.Default⟩ ∧ r.coef.toNat % 2 = 0) ∧
    RoundBank ⟨⟨2135, 0⟩, 3, state.Default⟩ 2 = some ⟨⟨214, 0⟩, 2, state.Default⟩ := by
  obtain ⟨r, h1, -, -, -, -, -, -, h8, -⟩ :=
    RoundBank_half_even ⟨⟨2125, 0⟩, 3, state.Default⟩ 2
      (by decide) (by decide) (by decide) (by decide)
  have hv : RoundBank ⟨⟨2125, 0⟩, 3, state.Default⟩ 2 = some ⟨⟨212, 0⟩, 2, state.Default⟩ := by
    decide
  refine ⟨⟨r, h1, ?_, h8 (by decide)⟩, by decide⟩
  rw [hv] at h1
  exact (Option.some.inj h1).symm

/-- C7. `RoundHalfAwayFromZero` rounds to nearest with ties away from zero: for
a finite value whose exponent lies within the powers-of-ten table and a
precision `p` below that exponent, with `f = 10^(e-p)`, the result has the sign
of the input, exponent `p` and coefficient `(c div f) + 1` if
`c mod f >= f/2`, else `c div f`; that coefficient equals
`floor((2c + f) / (2f))`, `f/2` is exact, the coefficient is an integer nearest
to `c / f`, and on an exact tie it is the larger one. -/
theorem RoundHalfAwayFromZero_nearest (v : Dec128) (p : Nat) (hwf : v.coef.WF)
    (hfin : v.state < state.Error) (he : v.exp < Pow10Uint64.length) (hp : p < v.exp) :
    ∃ r : Dec128, RoundHalfAwayFromZero v p = some r ∧ r.state = v.state ∧ r.exp = p ∧
      r.coef.WF ∧
      r.coef.toNat =
        (if 10 ^ (v.exp - p) / 2 ≤ v.coef.toNat % 10 ^ (v.exp - p)
          then v.coef.toNat / 10 ^ (v.exp - p) + 1 else v.coef.toNat / 10 ^ (v.exp - p)) ∧
      r.coef.toNat = (2 * v.coef.toNat + 10 ^ (v.exp - p)) / (2 * 10 ^ (v.exp - p)) ∧
      2 * (10 ^ (v.exp - p) / 2) = 10 ^ (v.exp - p) ∧
      |(r.coef.toNat : ℤ) * ((10 ^ (v.exp - p) : ℕ) : ℤ) - (v.coef.toNat : ℤ)| * 2
        ≤ ((10 ^ (v.exp - p) : ℕ) : ℤ) ∧
      (∀ m : ℤ, |(r.coef.toNat : ℤ) * ((10 ^ (v.exp - p) : ℕ) : ℤ) - (v.coef.toNat : ℤ)|
        ≤ |m * ((10 ^ (v.exp - p) : ℕ) : ℤ) - (v.coef.toNat : ℤ)|) ∧
      (2 * (v.coef.toNat % 10 ^ (v.exp - p)) = 10 ^ (v.exp - p) →
        r.coef.toNat = v.coef.toNat / 10 ^ (v.exp - p) + 1) := by
  have hc := Uint128.toNat_lt v.coef hwf
  have hf := ten_le_pow10 (v.exp - p) (by omega)
  have hev := pow10_even (v.exp - p) (by omega)
  have hq := quot_succ_lt _ _ hc hf
  have hlo := half_bound_lo v.coef.toNat (10 ^ (v.exp - p))
  have hhi := half_bound_hi v.coef.toNat (10 ^ (v.exp - p)) (by omega)
  have hdm : 10 ^ (v.exp - p) * (v.coef.toNat / 10 ^ (v.exp - p))
      + v.coef.toNat % 10 ^ (v.exp - p) = v.coef.toNat := Nat.div_add_mod _ _
  have hr : v.coef.toNat % 10 ^ (v.exp - p) < 10 ^ (v.exp - p) := Nat.mod_lt _ (by omega)
  have hval : ∀ n : ℕ, n < 2 ^ 128 → (Uint128.ofNat n).toNat = n := Uint128.toNat_ofNat
  have hnear := nearest_of_half (v.coef.toNat : ℤ) ((10 ^ (v.exp - p) : ℕ) : ℤ)
  refine ⟨_, RoundHalfAwayFromZero_eq v p hwf hfin he hp, rfl, rfl, Uint128.ofNat_WF _, ?_⟩
  generalize 10 ^ (v.exp - p) = f at *
  generalize v.coef.toNat / f = q at *
  generalize v.coef.toNat % f = r at *
  generalize v.coef.toNat = c at *
  have hfz : (0 : ℤ) < (f : ℤ) := by exact_mod_cast (by omega : 0 < f)
  by_cases hcond : f / 2 ≤ r
  · have hb := hhi (by omega)
    have h2 : f ≤ 2 * r := by omega
    have hfl : (2 * c + f) / (2 * f) = q + 1 := by
      apply Nat.div_eq_of_lt_le <;> rw [← hdm] <;> nlinarith
    simp only [hcond, if_true, hval (q + 1) hq, hfl]
    exact ⟨trivial, trivial, by omega, hb, fun m => hnear _ hfz hb m, fun _ => trivial⟩
  · have hb := hlo (by omega)
    have h2 : 2 * r < f := by omega
    have hfl : (2 * c + f) / (2 * f) = q := by
      apply Nat.div_eq_of_lt_le <;> rw [← hdm] <;> nlinarith
    simp only [hcond, if_false, add_zero, hval q (by omega), hfl]
    exact ⟨trivial, trivial, by omega, hb, fun m => hnear _ hfz hb m, fun h => by omega⟩

/-- Witness for C7: `RoundHalfAwayFromZero(-1.235, 2) = -1.24` and
`RoundHalfAwayFromZero(1.234, 2) = 1.23`. -/
theorem RoundHalfAwayFromZero_nearest_witness :
    (∃ r : Dec128, RoundHalfAwayFromZero ⟨⟨1235, 0⟩, 3, state.Neg⟩ 2 = some r ∧
      r = ⟨⟨124, 0⟩, 2, state.Neg⟩ ∧ r.coef.toNat = (2 * 1235 + 10) / (2 * 10)) ∧
    RoundHalfAwayFromZero ⟨⟨1234, 0⟩, 3, state.Default⟩ 2
      = some ⟨⟨123, 0⟩, 2, state.Default⟩ := by
  obtain ⟨r, h1, -, -, -, -, h6, -⟩ :=
    RoundHalfAwayFromZero_nearest ⟨⟨1235, 0⟩, 3, state.Neg⟩ 2
      (by decide) (by decide) (by decide) (by decide)
  have hv : RoundHalfAwayFromZero ⟨⟨1235, 0⟩, 3, state.Neg⟩ 2
      = some ⟨⟨124, 0⟩, 2, state.Neg⟩ := by decide
  refine ⟨⟨r, h1, ?_, h6⟩, by decide⟩
  rw [hv] at h1
  exact (Option.some.inj h1).symm

/-- C8. `RoundHalfTowardZero` rounds to nearest with ties toward zero: for a
finite value whose exponent lies within the powers-of-ten table and a
precision `p` below that exponent, with `f = 10^(e-p)`, the result has the sign
of the input, exponent `p` and coefficient `(c div f) + 1` if `c mod f > f/2`
(strictly), else `c div f`; that coefficient is an integer nearest to `c / f`,
on an exact tie it is the smaller one, and the result differs from that of
`RoundHalfAwayFromZero` exactly when `c mod f = f/2`. -/
theorem RoundHalfTowardZero_nearest (v : Dec128) (p : Nat) (hwf : v.coef.WF)
    (hfin : v.state < state.Error) (he : v.exp < Pow10Uint64.length) (hp : p < v.exp) :
    ∃ r : Dec128, RoundHalfTowardZero v p = some r ∧ r.state = v.state ∧ r.exp = p ∧
      r.coef.WF ∧
      r.coef.toNat =
        (if 10 ^ (v.exp - p) / 2 < v.coef.toNat % 10 ^ (v.exp - p)
          then v.coef.toNat / 10 ^ (v.exp - p) + 1 else v.coef.toNat / 10 ^ (v.exp - p)) ∧
      |(r.coef.toNat : ℤ) * ((10 ^ (v.exp - p) : ℕ) : ℤ) - (v.coef.toNat : ℤ)| * 2
        ≤ ((10 ^ (v.exp - p) : ℕ) : ℤ) ∧
      (∀ m : ℤ, |(r.coef.toNat : ℤ) * ((10 ^ (v.exp - p) : ℕ) : ℤ) - (v.coef.toNat : ℤ)|
        ≤ |m * ((10 ^ (v.exp - p) : ℕ) : ℤ) - (v.coef.toNat : ℤ)|) ∧
      (2 * (v.coef.toNat % 10 ^ (v.exp - p)) = 10 ^ (v.exp - p) →
        r.coef.toNat = v.coef.toNat / 10 ^ (v.exp - p)) ∧
      (RoundHalfAwayFromZero v p ≠ some r ↔
        v.coef.toNat % 10 ^ (v.exp - p) = 10 ^ (v.exp - p) / 2) := by
  have hc := Uint128.toNat_lt v.coef hwf
  have hf := ten_le_pow10 (v.exp - p) (by omega)
  have hev := pow10_even (v.exp - p) (by omega)
  have hq := quot_succ_lt _ _ hc hf
  have hlo := half_bound_lo v.coef.toNat (10 ^ (v.exp - p))
  have hhi := half_bound_hi v.coef.toNat (10 ^ (v.exp - p)) (by omega)
  have hr : v.coef.toNat % 10 ^ (v.exp - p) < 10 ^ (v.exp - p) := Nat.mod_lt _ (by omega)
  have hval : ∀ n : ℕ, n < 2 ^ 128 → (Uint128.ofNat n).toNat = n := Uint128.toNat_ofNat
  have hnear := nearest_of_half (v.coef.toNat : ℤ) ((10 ^ (v.exp - p) : ℕ) : ℤ)
  refine ⟨_, RoundHalfTowardZero_eq v p hwf hfin he hp, rfl, rfl, Uint128.ofNat_WF _, ?_⟩
  rw [RoundHalfAwayFromZero_eq v p hwf hfin he hp]
  generalize 10 ^ (v.exp - p) = f at *
  generalize v.coef.toNat / f = q at *
  generalize v.coef.toNat % f = r at *
  generalize v.coef.toNat = c at *
  have hfz : (0 : ℤ) < (f : ℤ) := by exact_mod_cast (by omega : 0 < f)
  have hne : Uint128.ofNat (q + 1) ≠ Uint128.ofNat q := by
    intro h
    have h' := congrArg Uint128.toNat h
    rw [hval (q + 1) hq, hval q (by omega)] at h'
    omega
  by_cases hcond : f / 2 < r
  · have hb := hhi (by omega)
    have hle : f / 2 ≤ r := by omega
    simp only [hcond, hle, if_true, hval (q + 1) hq]
    refine ⟨trivial, hb, fun m => hnear _ hfz hb m, fun h => by omega, ?_⟩
    constructor
    · intro h; exact absurd rfl h
    · intro h; omega
  · have hb := hlo (by omega)
    simp only [hcond, if_false, add_zero, hval q (by omega)]
    refine ⟨trivial, hb, fun m => hnear _ hfz hb m, fun _ => trivial, ?_⟩
    by_cases hle : f / 2 ≤ r
    · simp only [hle, if_true]
      constructor
      · intro _; omega
      · intro _ h
        have h' := Option.some.inj h
        exact hne (congrArg Dec128.coef h')
    · simp only [hle, if_false, add_zero]
      constructor
      · intro h; exact absurd rfl h
      · intro h; omega

/-- Witness for C8: `RoundHalfTowardZero(1.235, 2) = 1.23` (where
`RoundHalfAwayFromZero` gives 1.24), `RoundHalfTowardZero(-1.235, 2) = -1.23`
and `RoundHalfTowardZero(-1.236, 2) = -1.24`. -/
theorem RoundHalfTowardZero_nearest_witness :
    (∃ r : Dec128, RoundHalfTowardZero ⟨⟨1235, 0⟩, 3, state.Default⟩ 2 = some r ∧
      r = ⟨⟨123, 0⟩, 2, state.Default⟩ ∧
      RoundHalfAwayFromZero ⟨⟨1235, 0⟩, 3, state.Default⟩ 2 ≠ some r) ∧
    RoundHalfTowardZero ⟨⟨1235, 0⟩, 3, state.Neg⟩ 2 = some ⟨⟨123, 0⟩, 2, state.Neg⟩ ∧
    RoundHalfTowardZero ⟨⟨1236, 0⟩, 3, state.Neg⟩ 2 = some ⟨⟨124, 0⟩, 2, state.Neg⟩ := by
  obtain ⟨r, h1, -, -, -, -, -, -, -, h9⟩ :=
    RoundHalfTowardZero_nearest ⟨⟨1235, 0⟩, 3, state.Default⟩ 2
      (by decide) (by decide) (by decide) (by decide)
  have hv : RoundHalfTowardZero ⟨⟨1235, 0⟩, 3, state.Default⟩ 2
      = some ⟨⟨123, 0⟩, 2, state.Default⟩ := by decide
  refine ⟨⟨r, h1, ?_, h9.mpr (by decide)⟩, by decide, by decide⟩
  rw [hv] at h1
  exact (Option.some.inj h1).symm

/-- C9. `Trunc` never increments and `RoundTowardZero` is its alias: the two
agree on every value and precision; and for a finite value whose exponent lies
within the powers-of-ten table and a precision `p` below that exponent, `Trunc`
returns the sign of the input, exponent `p` and coefficient exactly
`c div 10^(e-p)`, so that its magnitude is the largest multiple of `10^-p` not
exceeding `|V|`, namely `floor(|V| * 10^p) / 10^p`. -/
theorem Trunc_never_increments (v : Dec128) (p : Nat) :
    RoundTowardZero v p = Trunc v p ∧
    (v.coef.WF → v.state < state.Error → v.exp < Pow10Uint64.length → p < v.exp →
      ∃ r : Dec128, Trunc v p = some r ∧ r.state = v.state ∧ r.exp = p ∧ r.coef.WF ∧
        r.coef.toNat = v.coef.toNat / 10 ^ (v.exp - p) ∧
        r.coef.toNat * 10 ^ (v.exp - p) ≤ v.coef.toNat ∧
        v.coef.toNat < (r.coef.toNat + 1) * 10 ^ (v.exp - p) ∧
        |r.toRat| = (⌊|v.toRat| * (10 : ℚ) ^ p⌋ : ℚ) / (10 : ℚ) ^ p) := by
  refine ⟨rfl, fun hwf hfin he hp => ?_⟩
  have hc := Uint128.toNat_lt v.coef hwf
  have hf := ten_le_pow10 (v.exp - p) (by omega)
  have hq := quot_succ_lt _ _ hc hf
  have hn : v.coef.toNat / 10 ^ (v.exp - p) < 2 ^ 128 := by omega
  refine ⟨_, Trunc_eq v p hfin he hp, rfl, rfl, Uint128.ofNat_WF _,
    Uint128.toNat_ofNat _ hn, ?_, ?_, ?_⟩
  · simp only [Uint128.toNat_ofNat _ hn]
    exact Nat.div_mul_le_self _ _
  · simp only [Uint128.toNat_ofNat _ hn]
    have hdm := Nat.div_add_mod v.coef.toNat (10 ^ (v.exp - p))
    have hr : v.coef.toNat % 10 ^ (v.exp - p) < 10 ^ (v.exp - p) := Nat.mod_lt _ (by omega)
    nlinarith
  · rw [abs_toRat_mk _ _ _ hn, abs_toRat_scale v p (le_of_lt hp), floor_quot,
      Int.cast_natCast]

/-- Witness for C9: `Trunc(1.12345, 4) = 1.1234` and
`RoundTowardZero(-1.236, 2) = -1.23`. -/
theorem Trunc_never_increments_witness :
    (∃ r : Dec128, Trunc ⟨⟨112345, 0⟩, 5, state.Default⟩ 4 = some r ∧
      r = ⟨⟨11234, 0⟩, 4, state.Default⟩ ∧ r.coef.toNat = 112345 / 10 ^ (5 - 4)) ∧
    RoundTowardZero ⟨⟨1236, 0⟩, 3, state.Neg⟩ 2 = some ⟨⟨123, 0⟩, 2, state.Neg⟩ := by
  obtain ⟨r, h1, -, -, -, h5, -⟩ :=
    (Trunc_never_increments ⟨⟨112345, 0⟩, 5, state.Default⟩ 4).2
      (by decide) (by decide) (by decide) (by decide)
  have hv : Trunc ⟨⟨112345, 0⟩, 5, state.Default⟩ 4
      = some ⟨⟨11234, 0⟩, 4, state.Default⟩ := by decide
  refine ⟨⟨r, h1, ?_, h5⟩, by decide⟩
  rw [hv] at h1
  exact (Option.some.inj h1).symm

/-- C10. `RoundAwayFromZero` increments on any nonzero remainder whatever the
sign: for a finite value whose exponent lies within the powers-of-ten table and
a precision `p` below that exponent, with `f = 10^(e-p)`, the result has the
sign of the input, exponent `p` and coefficient `ceil(c / f)`, that is
`c div f` plus one iff `c mod f > 0`, so that its magnitude is the smallest
multiple of `10^-p` not below `|V|`, namely `ceil(|V| * 10^p) / 10^p`. -/
theorem RoundAwayFromZero_is_ceil_of_magnitude (v : Dec128) (p : Nat) (hwf : v.coef.WF)
    (hfin : v.state < state.Error) (he : v.exp < Pow10Uint64.length) (hp : p < v.exp) :
    ∃ r : Dec128, RoundAwayFromZero v p = some r ∧ r.state = v.state ∧ r.exp = p ∧
      r.coef.WF ∧
      r.coef.toNat = v.coef.toNat / 10 ^ (v.exp - p) +
        (if 0 < v.coef.toNat % 10 ^ (v.exp - p) then 1 else 0) ∧
      (r.coef.toNat : ℤ) = ⌈(v.coef.toNat : ℚ) / ((10 ^ (v.exp - p) : ℕ) : ℚ)⌉ ∧
      |r.toRat| = (⌈|v.toRat| * (10 : ℚ) ^ p⌉ : ℚ) / (10 : ℚ) ^ p := by
  have hc := Uint128.toNat_lt v.coef hwf
  have hf := ten_le_pow10 (v.exp - p) (by omega)
  have hn : v.coef.toNat / 10 ^ (v.exp - p) +
      (if 0 < v.coef.toNat % 10 ^ (v.exp - p) then 1 else 0) < 2 ^ 128 := by
    have := quot_succ_lt _ _ hc hf
    split_ifs <;> omega
  have hceil := ceil_quot v.coef.toNat (10 ^ (v.exp - p)) (by omega)
  refine ⟨_, RoundAwayFromZero_eq v p hwf hfin he hp, rfl, rfl, Uint128.ofNat_WF _,
    Uint128.toNat_ofNat _ hn, ?_, ?_⟩
  · simp only [Uint128.toNat_ofNat _ hn]
    exact hceil.symm
  · rw [abs_toRat_mk _ _ _ hn, abs_toRat_scale v p (le_of_lt hp), hceil, Int.cast_natCast]

/-- Witness for C10: `RoundAwayFromZero(1.234, 2) = 1.24` and
`RoundAwayFromZero(-1.234, 2) = -1.24`. -/
theorem RoundAwayFromZero_is_ceil_of_magnitude_witness :
    (∃ r : Dec128, RoundAwayFromZero ⟨⟨1234, 0⟩, 3, state.Neg⟩ 2 = some r ∧
      r = ⟨⟨124, 0⟩, 2, state.Neg⟩ ∧
      |r.toRat| =
        (⌈|Dec128.toRat ⟨⟨1234, 0⟩, 3, state.Neg⟩| * (10 : ℚ) ^ 2⌉ : ℚ) / (10 : ℚ) ^ 2) ∧
    RoundAwayFromZero ⟨⟨1234, 0⟩, 3, state.Default⟩ 2
      = some ⟨⟨124, 0⟩, 2, state.Default⟩ := by
  obtain ⟨r, h1, -, -, -, -, -, h7⟩ :=
    RoundAwayFromZero_is_ceil_of_magnitude ⟨⟨1234, 0⟩, 3, state.Neg⟩ 2
      (by decide) (by decide) (by decide) (by decide)
  have hv : RoundAwayFromZero ⟨⟨1234, 0⟩, 3, state.Neg⟩ 2
      = some ⟨⟨124, 0⟩, 2, state.Neg⟩ := by decide
  refine ⟨⟨r, h1, ?_, h7⟩, by decide⟩
  rw [hv] at h1
  exact (Option.some.inj h1).symm

/-! ## Unary operations and rounding on values already at the requested precision -/

theorem finite_cases (v : Dec128) (hfin : v.state < state.Error) :
    v.state = state.Default ∨ v.state = state.Neg := by
  rcases Nat.lt_or_ge v.state 1 with h | h
  · exact Or.inl (Nat.lt_one_iff.mp h)
  · exact Or.inr (Nat.le_antisymm (Nat.lt_succ_iff.mp hfin) h)

theorem RoundDown_of_le (v : Dec128) (p : Nat) (h : state.Error ≤ v.state ∨ v.exp ≤ p) :
    RoundDown v p = some v := by
  unfold RoundDown
  exact if_pos h

theorem RoundUp_of_le (v : Dec128) (p : Nat) (h : state.Error ≤ v.state ∨ v.exp ≤ p) :
    RoundUp v p = some v := by
  unfold RoundUp
  exact if_pos h

theorem Trunc_of_le (v : Dec128) (p : Nat) (h : state.Error ≤ v.state ∨ v.exp ≤ p) :
    Trunc v p = some v := by
  unfold Trunc
  exact if_pos h

theorem RoundAwayFromZero_of_le (v : Dec128) (p : Nat)
    (h : state.Error ≤ v.state ∨ v.exp ≤ p) : RoundAwayFromZero v p = some v := by
  unfold RoundAwayFromZero
  exact if_pos h

theorem RoundHalfTowardZero_of_le (v : Dec128) (p : Nat)
    (h : state.Error ≤ v.state ∨ v.exp ≤ p) : RoundHalfTowardZero v p = some v := by
  unfold RoundHalfTowardZero
  exact if_pos h

theorem RoundHalfAwayFromZero_of_le (v : Dec128) (p : Nat)
    (h : state.Error ≤ v.state ∨ v.exp ≤ p) : RoundHalfAwayFromZero v p = some v := by
  unfold RoundHalfAwayFromZero
  exact if_pos h

theorem RoundBank_of_le (v : Dec128) (p : Nat) (h : state.Error ≤ v.state ∨ v.exp ≤ p) :
    RoundBank v p = some v := by
  unfold RoundBank
  exact if_pos h

/-- C13. Every unary operation returns an error input unchanged: for a value
whose state is an error marker, every integer `n`, every precision `p` and
every positive depth bound, `Abs`, `Neg`, `Sqrt`, `PowInt` and each of the
eight rounding rules return the value itself. -/
theorem unary_error_passthrough (K : Kernel) (v : Dec128) (n : Int) (p fuel : Nat)
    (h : state.Error ≤ v.state) :
    Abs v = v ∧ Neg v = v ∧ Sqrt K v = v ∧ PowInt K (fuel + 1) v n = some v ∧
    RoundDown v p = some v ∧ RoundUp v p = some v ∧ RoundTowardZero v p = some v ∧
    RoundAwayFromZero v p = some v ∧ RoundHalfTowardZero v p = some v ∧
    RoundHalfAwayFromZero v p = some v ∧ RoundBank v p = some v ∧ Trunc v p = some v := by
  have h' : v.state ≥ state.Error := h
  refine ⟨by simp [Abs, h'], by simp [Neg, h'], by simp [Sqrt, h'], by simp [PowInt, h'],
    RoundDown_of_le v p (Or.inl h), RoundUp_of_le v p (Or.inl h), Trunc_of_le v p (Or.inl h),
    RoundAwayFromZero_of_le v p (Or.inl h), RoundHalfTowardZero_of_le v p (Or.inl h),
    RoundHalfAwayFromZero_of_le v p (Or.inl h), RoundBank_of_le v p (Or.inl h),
    Trunc_of_le v p (Or.inl h)⟩

/-- Witness for C13: the Overflow marker, the minimum integer as power and
precision 2. -/
theorem unary_error_passthrough_witness :
    Abs (Dec128.ofState state.Overflow) = Dec128.ofState state.Overflow ∧
    Neg (Dec128.ofState state.Overflow) = Dec128.ofState state.Overflow ∧
    Sqrt failKernel (Dec128.ofState state.Overflow) = Dec128.ofState state.Overflow ∧
    PowInt failKernel (0 + 1) (Dec128.ofState state.Overflow) minInt
      = some (Dec128.ofState state.Overflow) ∧
    RoundDown (Dec128.ofState state.Overflow) 2 = some (Dec128.ofState state.Overflow) ∧
    RoundUp (Dec128.ofState state.Overflow) 2 = some (Dec128.ofState state.Overflow) ∧
    RoundTowardZero (Dec128.ofState state.Overflow) 2 = some (Dec128.ofState state.Overflow) ∧
    RoundAwayFromZero (Dec128.ofState state.Overflow) 2
      = some (Dec128.ofState state.Overflow) ∧
    RoundHalfTowardZero (Dec128.ofState state.Overflow) 2
      = some (Dec128.ofState state.Overflow) ∧
    RoundHalfAwayFromZero (Dec128.ofState state.Overflow) 2
      = some (Dec128.ofState state.Overflow) ∧
    RoundBank (Dec128.ofState state.Overflow) 2 = some (Dec128.ofState state.Overflow) ∧
    Trunc (Dec128.ofState state.Overflow) 2 = some (Dec128.ofState state.Overflow) :=
  unary_error_passthrough failKernel (Dec128.ofState state.Overflow) minInt 2 0 (by decide)

/-- C14. `Sqrt` special cases: a finite value with a zero coefficient (either
sign, any exponent) gives exactly `Zero`, the zero test coming before the sign
test; a finite negative value with a nonzero coefficient gives the
SqrtNegative marker. -/
theorem Sqrt_dispatch (K : Kernel) (v : Dec128) (hfin : v.state < state.Error) :
    (v.coef.IsZero = true → Sqrt K v = Zero) ∧
    (v.state = state.Neg → v.coef.IsZero = false →
      Sqrt K v = Dec128.ofState state.SqrtNegative) := by
  have h' : ¬ v.state ≥ state.Error := Nat.not_le.mpr hfin
  constructor
  · intro hz
    simp [Sqrt, h', hz]
  · intro hs hz
    have hne : ¬ state.Neg ≥ state.Error := by decide
    rw [hs] at h'
    simp [Sqrt, hz, hs, hne]

/-- Witness for C14: the negative zero with exponent 4 gives `Zero`, and -0.09
gives the SqrtNegative marker. -/
theorem Sqrt_dispatch_witness :
    Sqrt failKernel ⟨⟨0, 0⟩, 4, state.Neg⟩ = Zero ∧
    Sqrt failKernel ⟨⟨9, 0⟩, 2, state.Neg⟩ = Dec128.ofState state.SqrtNegative :=
  ⟨(Sqrt_dispatch failKernel ⟨⟨0, 0⟩, 4, state.Neg⟩ (by decide)).1 (by decide),
   (Sqrt_dispatch failKernel ⟨⟨9, 0⟩, 2, state.Neg⟩ (by decide)).2 (by decide) (by decide)⟩

/-- C15. Sign operations change only the sign: for a finite value, `Neg` keeps
coefficient and exponent and swaps the positive and the negative marker, `Abs`
keeps coefficient and exponent and gives the positive marker; hence
`Neg (Neg v) = v`, `Abs (Abs v) = Abs v` and `Abs (Neg v) = Abs v`. -/
theorem sign_operations (v : Dec128) (hfin : v.state < state.Error) :
    (Neg v).coef = v.coef ∧ (Neg v).exp = v.exp ∧
    (v.state = state.Default → (Neg v).state = state.Neg) ∧
    (v.state = state.Neg → (Neg v).state = state.Default) ∧
    (Abs v).coef = v.coef ∧ (Abs v).exp = v.exp ∧ (Abs v).state = state.Default ∧
    Neg (Neg v) = v ∧ Abs (Abs v) = Abs v ∧ Abs (Neg v) = Abs v := by
  obtain ⟨c, e, s⟩ := v
  rcases finite_cases ⟨c, e, s⟩ hfin with h | h
  · simp only at h
    subst h
    simp [Neg, Abs, state.Default, state.Neg, state.Error]
  · simp only at h
    subst h
    simp [Neg, Abs, state.Default, state.Neg, state.Error]

/-- Witness for C15: the values 1.25 and -1.25. -/
theorem sign_operations_witness :
    Neg ⟨⟨125, 0⟩, 2, state.Default⟩ = ⟨⟨125, 0⟩, 2, state.Neg⟩ ∧
    Neg ⟨⟨125, 0⟩, 2, state.Neg⟩ = ⟨⟨125, 0⟩, 2, state.Default⟩ ∧
    Abs ⟨⟨125, 0⟩, 2, state.Neg⟩ = ⟨⟨125, 0⟩, 2, state.Default⟩ ∧
    Neg (Neg ⟨⟨125, 0⟩, 2, state.Neg⟩) = ⟨⟨125, 0⟩, 2, state.Neg⟩ ∧
    Abs (Abs ⟨⟨125, 0⟩, 2, state.Neg⟩) = Abs ⟨⟨125, 0⟩, 2, state.Neg⟩ ∧
    Abs (Neg ⟨⟨125, 0⟩, 2, state.Neg⟩) = Abs ⟨⟨125, 0⟩, 2, state.Neg⟩ :=
  ⟨by decide, by decide, by decide,
   (sign_operations ⟨⟨125, 0⟩, 2, state.Neg⟩ (by decide)).2.2.2.2.2.2.2.1,
   (sign_operations ⟨⟨125, 0⟩, 2, state.Neg⟩ (by decide)).2.2.2.2.2.2.2.2.1,
   (sign_operations ⟨⟨125, 0⟩, 2, state.Neg⟩ (by decide)).2.2.2.2.2.2.2.2.2⟩

/-- C17. `Mod` is the remainder component of `QuoRem`: on all operands, finite
or error, zero or nonzero, and for every implementation of the helpers, the
two functions run through the same sequence of tests and `Mod` returns the
second component of what `QuoRem` returns. -/
theorem Mod_eq_QuoRem_snd (K : Kernel) (a b : Dec128) : Mod K a b = (QuoRem K a b).2 := by
  unfold Mod QuoRem
  generalize K.tryQuoRem a b = x
  generalize K.tryQuoRem (K.Canonical a) (K.Canonical b) = y
  obtain ⟨q, r, ok⟩ := x
  obtain ⟨q', r', ok'⟩ := y
  cases ok <;> cases ok' <;> simp only <;> split_ifs <;> rfl

/-- C11. Rounding idempotence: each of the eight rules returns a value
unchanged when the precision is at least its exponent; hence for a finite
value whose exponent lies within the powers-of-ten table and any precision,
each rule returns a result which the same rule at the same precision returns
unchanged. -/
theorem rounding_idempotent (v : Dec128) (p : Nat) :
    (v.exp ≤ p →
      RoundDown v p = some v ∧ RoundUp v p = some v ∧ RoundTowardZero v p = some v ∧
      RoundAwayFromZero v p = some v ∧ RoundHalfTowardZero v p = some v ∧
      RoundHalfAwayFromZero v p = some v ∧ RoundBank v p = some v ∧ Trunc v p = some v) ∧
    (v.coef.WF → v.state < state.Error → v.exp < Pow10Uint64.length →
      (∃ r, RoundDown v p = some r ∧ RoundDown r p = some r) ∧
      (∃ r, RoundUp v p = some r ∧ RoundUp r p = some r) ∧
      (∃ r, RoundTowardZero v p = some r ∧ RoundTowardZero r p = some r) ∧
      (∃ r, RoundAwayFromZero v p = some r ∧ RoundAwayFromZero r p = some r) ∧
      (∃ r, RoundHalfTowardZero v p = some r ∧ RoundHalfTowardZero r p = some r) ∧
      (∃ r, RoundHalfAwayFromZero v p = some r ∧ RoundHalfAwayFromZero r p = some r) ∧
      (∃ r, RoundBank v p = some r ∧ RoundBank r p = some r) ∧
      (∃ r, Trunc v p = some r ∧ Trunc r p = some r)) := by
  constructor
  · intro h
    exact ⟨RoundDown_of_le v p (Or.inr h), RoundUp_of_le v p (Or.inr h),
      Trunc_of_le v p (Or.inr h), RoundAwayFromZero_of_le v p (Or.inr h),
      RoundHalfTowardZero_of_le v p (Or.inr h), RoundHalfAwayFromZero_of_le v p (Or.inr h),
      RoundBank_of_le v p (Or.inr h), Trunc_of_le v p (Or.inr h)⟩
  · intro hwf hfin he
    rcases Nat.lt_or_ge p v.exp with hp | hp
    · exact ⟨⟨_, RoundDown_eq v p hwf hfin he hp, RoundDown_of_le _ p (Or.inr (le_refl p))⟩,
        ⟨_, RoundUp_eq v p hwf hfin he hp, RoundUp_of_le _ p (Or.inr (le_refl p))⟩,
        ⟨_, Trunc_eq v p hfin he hp, Trunc_of_le _ p (Or.inr (le_refl p))⟩,
        ⟨_, RoundAwayFromZero_eq v p hwf hfin he hp,
          RoundAwayFromZero_of_le _ p (Or.inr (le_refl p))⟩,
        ⟨_, RoundHalfTowardZero_eq v p hwf hfin he hp,
          RoundHalfTowardZero_of_le _ p (Or.inr (le_refl p))⟩,
        ⟨_, RoundHalfAwayFromZero_eq v p hwf hfin he hp,
          RoundHalfAwayFromZero_of_le _ p (Or.inr (le_refl p))⟩,
        ⟨_, RoundBank_eq v p hwf hfin he hp, RoundBank_of_le _ p (Or.inr (le_refl p))⟩,
        ⟨_, Trunc_eq v p hfin he hp, Trunc_of_le _ p (Or.inr (le_refl p))⟩⟩
    · exact ⟨⟨v, RoundDown_of_le v p (Or.inr hp), RoundDown_of_le v p (Or.inr hp)⟩,
        ⟨v, RoundUp_of_le v p (Or.inr hp), RoundUp_of_le v p (Or.inr hp)⟩,
        ⟨v, Trunc_of_le v p (Or.inr hp), Trunc_of_le v p (Or.inr hp)⟩,
        ⟨v, RoundAwayFromZero_of_le v p (Or.inr hp), RoundAwayFromZero_of_le v p (Or.inr hp)⟩,
        ⟨v, RoundHalfTowardZero_of_le v p (Or.inr hp),
          RoundHalfTowardZero_of_le v p (Or.inr hp)⟩,
        ⟨v, RoundHalfAwayFromZero_of_le v p (Or.inr hp),
          RoundHalfAwayFromZero_of_le v p (Or.inr hp)⟩,
        ⟨v, RoundBank_of_le v p (Or.inr hp), RoundBank_of_le v p (Or.inr hp)⟩,
        ⟨v, Trunc_of_le v p (Or.inr hp), Trunc_of_le v p (Or.inr hp)⟩⟩

/-- Witness for C11: 2.135 at precision 3 is returned unchanged by
`RoundBank`, and at precision 2 a second `RoundBank` changes nothing. -/
theorem rounding_idempotent_witness :
    RoundBank ⟨⟨2135, 0⟩, 3, state.Default⟩ 3 = some ⟨⟨2135, 0⟩, 3, state.Default⟩ ∧
    (∃ r, RoundBank ⟨⟨2135, 0⟩, 3, state.Default⟩ 2 = some r ∧ RoundBank r 2 = some r) ∧
    RoundBank ⟨⟨2135, 0⟩, 3, state.Default⟩ 2 = some ⟨⟨214, 0⟩, 2, state.Default⟩ ∧
    RoundBank ⟨⟨214, 0⟩, 2, state.Default⟩ 2 = some ⟨⟨214, 0⟩, 2, state.Default⟩ :=
  ⟨((rounding_idempotent ⟨⟨2135, 0⟩, 3, state.Default⟩ 3).1 (by decide)).2.2.2.2.2.2.1,
   ((rounding_idempotent ⟨⟨2135, 0⟩, 3, state.Default⟩ 2).2
      (by decide) (by decide) (by decide)).2.2.2.2.2.2.1,
   by decide, by decide⟩

/-- C12. Rounding never fails on finite input: for a finite value with a
128-bit coefficient whose exponent lies within the powers-of-ten table and a
precision `p` below that exponent, the table index `e - p` is in range and
holds the nonzero divisor `10^(e-p)`, the quotient/remainder step reports no
error, its quotient is at most `(2^128 - 1) div 10` so that adding one reports
no error, and each of the eight rules returns a finite value with exponent
exactly `p` and the sign marker of the input. -/
theorem rounding_never_fails (v : Dec128) (p : Nat) (hwf : v.coef.WF)
    (hfin : v.state < state.Error) (he : v.exp < Pow10Uint64.length) (hp : p < v.exp) :
    v.exp - p < Pow10Uint64.length ∧
    Pow10Uint64[v.exp - p]? = some (10 ^ (v.exp - p)) ∧ 10 ^ (v.exp - p) ≠ 0 ∧
    (v.coef.QuoRem64 (10 ^ (v.exp - p))).2.2 < state.Error ∧
    (v.coef.QuoRem64 (10 ^ (v.exp - p))).1.toNat ≤ (2 ^ 128 - 1) / 10 ∧
    ((v.coef.QuoRem64 (10 ^ (v.exp - p))).1.Add64 1).2 < state.Error ∧
    (∀ R ∈ [RoundDown, RoundUp, RoundTowardZero, RoundAwayFromZero, RoundHalfTowardZero,
        RoundHalfAwayFromZero, RoundBank, Trunc],
      ∃ r : Dec128, R v p = some r ∧ r.state = v.state ∧ r.state < state.Error ∧ r.exp = p) := by
  have hlen : Pow10Uint64.length = 20 := rfl
  have hi : v.exp - p < 20 := by omega
  have hc := Uint128.toNat_lt v.coef hwf
  have hf := ten_le_pow10 (v.exp - p) (by omega)
  have hq : v.coef.toNat / 10 ^ (v.exp - p) ≤ v.coef.toNat / 10 :=
    Nat.div_le_div_left hf (by norm_num)
  have hq2 : v.coef.toNat / 10 ^ (v.exp - p) < 2 ^ 128 := by omega
  have hD : state.Default < state.Error := by decide
  refine ⟨by omega, Pow10Uint64_get _ hi, by positivity, ?_, ?_, ?_, ?_⟩
  · rw [Uint128.QuoRem64_pow10]
    exact hD
  · rw [Uint128.QuoRem64_pow10]
    simp only [Uint128.toNat_ofNat _ hq2]
    omega
  · rw [Uint128.QuoRem64_pow10]
    simp only [Uint128.Add64_quot _ _ hc hf]
    exact hD
  · intro R hR
    simp only [List.mem_cons, List.mem_singleton, List.not_mem_nil, or_false] at hR
    rcases hR with h | h | h | h | h | h | h | h <;> subst h
    · exact ⟨_, RoundDown_eq v p hwf hfin he hp, rfl, hfin, rfl⟩
    · exact ⟨_, RoundUp_eq v p hwf hfin he hp, rfl, hfin, rfl⟩
    · exact ⟨_, Trunc_eq v p hfin he hp, rfl, hfin, rfl⟩
    · exact ⟨_, RoundAwayFromZero_eq v p hwf hfin he hp, rfl, hfin, rfl⟩
    · exact ⟨_, RoundHalfTowardZero_eq v p hwf hfin he hp, rfl, hfin, rfl⟩
    · exact ⟨_, RoundHalfAwayFromZero_eq v p hwf hfin he hp, rfl, hfin, rfl⟩
    · exact ⟨_, RoundBank_eq v p hwf hfin he hp, rfl, hfin, rfl⟩
    · exact ⟨_, Trunc_eq v p hfin he hp, rfl, hfin, rfl⟩

/-- Witness for C12: the largest coefficient at the largest exponent of the
table rounded to precision 0, and -0.001 truncated to precision 2, which keeps
the negative marker on the coefficient 0. -/
theorem rounding_never_fails_witness :
    ((Uint128.QuoRem64 ⟨2 ^ 64 - 1, 2 ^ 64 - 1⟩ (10 ^ (19 - 0))).1.Add64 1).2 < state.Error ∧
    (∃ r : Dec128, RoundAwayFromZero ⟨⟨2 ^ 64 - 1, 2 ^ 64 - 1⟩, 19, state.Neg⟩ 0 = some r ∧
      r.state = state.Neg ∧ r.state < state.Error ∧ r.exp = 0) ∧
    Trunc ⟨⟨1, 0⟩, 3, state.Neg⟩ 2 = some ⟨⟨0, 0⟩, 2, state.Neg⟩ :=
  ⟨(rounding_never_fails ⟨⟨2 ^ 64 - 1, 2 ^ 64 - 1⟩, 19, state.Neg⟩ 0
      (by decide) (by decide) (by decide) (by decide)).2.2.2.2.2.1,
   (rounding_never_fails ⟨⟨2 ^ 64 - 1, 2 ^ 64 - 1⟩, 19, state.Neg⟩ 0
      (by decide) (by decide) (by decide) (by decide)).2.2.2.2.2.2 RoundAwayFromZero
      (by simp),
   by decide⟩

/-! ## Integer power -/

theorem negInt_minInt : negInt minInt = minInt := by
  unfold negInt minInt
  norm_num

theorem negInt_eq_neg (n : Int) (h1 : minInt < n) (h2 : n ≤ maxInt) : negInt n = -n := by
  unfold negInt
  unfold minInt at h1
  unfold maxInt at h2
  omega

theorem PowInt_minInt (K : Kernel) (self : Dec128) (hfin : self.state < state.Error) :
    ∀ fuel, PowInt K fuel self minInt = none := by
  intro fuel
  induction fuel with
  | zero => rfl
  | succ fuel ih =>
    have h' : ¬ self.state ≥ state.Error := Nat.not_le.mpr hfin
    have hneg : minInt < 0 := by unfold minInt; norm_num
    simp only [PowInt, h', if_false, hneg, if_true, negInt_minInt, ih]

theorem PowInt_succ (K : Kernel) :
    ∀ (fuel : Nat) (self : Dec128) (n : Int) (r : Dec128),
      PowInt K fuel self n = some r → PowInt K (fuel + 1) self n = some r := by
  intro fuel
  induction fuel with
  | zero =>
    intro self n r h
    simp [PowInt] at h
  | succ fuel ih =>
    intro self n r h
    rw [PowInt] at h ⊢
    split_ifs at h ⊢ with h1 h2 h3 h4 h5
    · exact h
    · cases hin : PowInt K fuel self (negInt n) with
      | none => rw [hin] at h; simp at h
      | some x =>
        rw [hin] at h
        rw [ih _ _ _ hin]
        exact h
    · exact h
    · exact h
    · exact ih _ _ _ h
    · cases hin : PowInt K fuel (Mul K self self) ((n - 1) / 2) with
      | none => rw [hin] at h; simp at h
      | some x =>
        rw [hin] at h
        rw [ih _ _ _ hin]
        exact h

theorem PowInt_le (K : Kernel) (fuel fuel' : Nat) (self : Dec128) (n : Int) (r : Dec128)
    (hle : fuel ≤ fuel') (h : PowInt K fuel self n = some r) :
    PowInt K fuel' self n = some r := by
  induction hle with
  | refl => exact h
  | step _ ih => exact PowInt_succ K _ _ _ _ ih

theorem PowInt_pos_returns (K : Kernel) :
    ∀ (k : Nat) (self : Dec128) (n : Int), 1 ≤ n → n < 2 ^ (k + 1) →
      ∃ r, PowInt K (k + 1) self n = some r := by
  intro k
  induction k with
  | zero =>
    intro self n h1 h2
    have hn : n = 1 := by norm_num at h2; omega
    subst hn
    rw [PowInt]
    split_ifs <;> first | exact ⟨_, rfl⟩ | omega
  | succ k ih =>
    intro self n h1 h2
    have hpow : (2 : Int) ^ (k + 1 + 1) = 2 * 2 ^ (k + 1) := by ring
    rw [hpow] at h2
    rw [PowInt]
    split_ifs with h3 h4 h5 h6 h7
    · exact ⟨_, rfl⟩
    · omega
    · exact ⟨_, rfl⟩
    · exact ⟨_, rfl⟩
    · exact ih _ _ (by omega) (by omega)
    · obtain ⟨x, hx⟩ := ih (Mul K self self) ((n - 1) / 2) (by omega) (by omega)
      rw [hx]
      exact ⟨_, rfl⟩

theorem lt_two_pow_log (n : Int) (h : 1 ≤ n) : n < 2 ^ (Nat.log 2 n.natAbs + 1) := by
  have h1 : n.natAbs < 2 ^ (Nat.log 2 n.natAbs + 1) :=
    Nat.lt_pow_succ_log_self (by norm_num) _
  have h2 : ((n.natAbs : Nat) : Int) = n := Int.natAbs_of_nonneg (by omega)
  have h3 : ((n.natAbs : Nat) : Int) < ((2 ^ (Nat.log 2 n.natAbs + 1) : Nat) : Int) := by
    exact_mod_cast h1
  rw [h2] at h3
  exact_mod_cast h3

theorem PowInt_returns (K : Kernel) (self : Dec128) (n : Int) (h1 : minInt < n)
    (h2 : n ≤ maxInt) :
    ∃ r, PowInt K (Nat.log 2 n.natAbs + 2) self n = some r := by
  rcases lt_trichotomy n 0 with hn | hn | hn
  · obtain ⟨x, hx⟩ := PowInt_pos_returns K (Nat.log 2 n.natAbs) self (-n) (by omega)
      (by have := lt_two_pow_log (-n) (by omega); rwa [Int.natAbs_neg] at this)
    rw [PowInt]
    split_ifs with h3
    · exact ⟨_, rfl⟩
    · rw [negInt_eq_neg n h1 h2, hx]
      exact ⟨_, rfl⟩
  · subst hn
    rw [PowInt]
    split_ifs <;> first | exact ⟨_, rfl⟩ | omega
  · obtain ⟨x, hx⟩ := PowInt_pos_returns K (Nat.log 2 n.natAbs) self n (by omega)
      (lt_two_pow_log n (by omega))
    exact ⟨x, PowInt_succ K _ _ _ _ hx⟩

/-- C16. Termination of `PowInt`: for every receiver and every 64-bit integer
`n` other than the minimum integer the call returns within
`1 + floor(log2 |n|)` nested recursive calls (a depth bound of
`floor(log2 |n|) + 2` calls in all), and an error receiver is returned at
once for every `n`; but at the minimum integer `-n` wraps around to `n`
itself, so with a finite receiver the call repeats itself and returns under
no depth bound. -/
theorem PowInt_termination (K : Kernel) (self : Dec128) :
    (∀ n : Int, minInt < n → n ≤ maxInt →
      ∃ r, ∀ fuel, Nat.log 2 n.natAbs + 2 ≤ fuel → PowInt K fuel self n = some r) ∧
    (state.Error ≤ self.state → ∀ fuel, PowInt K (fuel + 1) self minInt = some self) ∧
    (self.state < state.Error →
      negInt minInt = minInt ∧ ∀ fuel, PowInt K fuel self minInt = none) := by
  refine ⟨?_, ?_, ?_⟩
  · intro n h1 h2
    obtain ⟨r, hr⟩ := PowInt_returns K self n h1 h2
    exact ⟨r, fun fuel hle => PowInt_le K _ fuel self n r hle hr⟩
  · intro h fuel
    have h' : self.state ≥ state.Error := h
    simp [PowInt, h']
  · intro hfin
    exact ⟨negInt_minInt, PowInt_minInt K self hfin⟩

/-- Evaluation for C16: `One.PowInt(n)` at the minimum integer `n` returns
under no depth bound, while at `n = -8` it returns within depth 5. -/
theorem PowInt_termination_witness :
    (∀ fuel, PowInt failKernel fuel One minInt = none) ∧
    (∃ r, PowInt failKernel (Nat.log 2 (Int.natAbs (-8)) + 2) One (-8) = some r) := by
  obtain ⟨r, hr⟩ := (PowInt_termination failKernel One).1 (-8) (by decide) (by decide)
  exact ⟨((PowInt_termination failKernel One).2.2 (by decide)).2, r, hr _ (le_refl _)⟩

theorem Mul_of_zero_coef (K : Kernel) (a b : Dec128) (ha : a.state < state.Error)
    (hb : b.state < state.Error) (h : a.coef.IsZero = true ∨ b.coef.IsZero = true) :
    Mul K a b = Zero := by
  have ha' : ¬ state.Error ≤ a.state := Nat.not_le.mpr ha
  have hb' : ¬ state.Error ≤ b.state := Nat.not_le.mpr hb
  rcases h with h | h <;> simp [Mul, ha', hb', h]

theorem Div_of_zero_divisor (K : Kernel) (a b : Dec128) (ha : a.state < state.Error)
    (hb : b.state < state.Error) (h : b.coef.IsZero = true) :
    Div K a b = Dec128.ofState state.DivisionByZero := by
  have ha' : ¬ state.Error ≤ a.state := Nat.not_le.mpr ha
  have hb' : ¬ state.Error ≤ b.state := Nat.not_le.mpr hb
  simp [Div, ha', hb', h]

theorem Div_of_error_divisor (K : Kernel) (a b : Dec128) (ha : a.state < state.Error)
    (hb : state.Error ≤ b.state) : Div K a b = b := by
  have ha' : ¬ state.Error ≤ a.state := Nat.not_le.mpr ha
  simp [Div, ha', hb]

theorem Mul_of_error_left (K : Kernel) (a b : Dec128) (ha : state.Error ≤ a.state) :
    Mul K a b = a := by
  simp [Mul, ha]

theorem PowInt_zero_coef (K : Kernel) :
    ∀ (k : Nat) (self : Dec128) (n : Int), self.state < state.Error →
      self.coef.IsZero = true → 1 ≤ n → n < 2 ^ (k + 1) →
      PowInt K (k + 1) self n = some (if n = 1 then self else Zero) := by
  intro k
  induction k with
  | zero =>
    intro self n hfin hz h1 h2
    have hn : n = 1 := by norm_num at h2; omega
    have h' : ¬ self.state ≥ state.Error := Nat.not_le.mpr hfin
    subst hn
    simp [PowInt, h']
  | succ k ih =>
    intro self n hfin hz h1 h2
    have hpow : (2 : Int) ^ (k + 1 + 1) = 2 * 2 ^ (k + 1) := by ring
    rw [hpow] at h2
    have h' : ¬ self.state ≥ state.Error := Nat.not_le.mpr hfin
    have hm : Mul K self self = Zero := Mul_of_zero_coef K self self hfin hfin (Or.inl hz)
    have hZ : Zero.state < state.Error := by decide
    have hZz : Zero.coef.IsZero = true := by decide
    by_cases hn1 : n = 1
    · subst hn1
      simp [PowInt, h']
    · have hneg : ¬ n < 0 := by omega
      have hn0 : ¬ n = 0 := by omega
      rw [if_neg hn1, PowInt]
      simp only [h', if_false, hneg, hn0, hn1, hm]
      by_cases hpar : n % 2 = 0
      · rw [if_pos hpar, ih Zero (n / 2) hZ hZz (by omega) (by omega)]
        simp
      · rw [if_neg hpar, ih Zero ((n - 1) / 2) hZ hZz (by omega) (by omega)]
        simp only [ite_self]
        rw [Mul_of_zero_coef K Zero self hZ hfin (Or.inl hZz)]

/-- C20. Powers of a zero base: for a finite receiver with a zero coefficient
(any sign, any exponent), `PowInt` returns for every `n ≥ 1` a finite value
with a zero coefficient, for every negative `n` other than the minimum integer
the DivisionByZero marker, and for `n = 0` the constant `One`. -/
theorem PowInt_zero_base (K : Kernel) (self : Dec128) (hfin : self.state < state.Error)
    (hz : self.coef.IsZero = true) :
    (∀ n : Int, 1 ≤ n → n ≤ maxInt →
      ∃ r, (∀ fuel, Nat.log 2 n.natAbs + 1 ≤ fuel → PowInt K fuel self n = some r) ∧
        r.state < state.Error ∧ r.coef.IsZero = true) ∧
    (∀ n : Int, minInt < n → n < 0 → ∀ fuel, Nat.log 2 n.natAbs + 2 ≤ fuel →
      PowInt K fuel self n = some (Dec128.ofState state.DivisionByZero)) ∧
    (∀ fuel, PowInt K (fuel + 1) self 0 = some One) := by
  have h' : ¬ self.state ≥ state.Error := Nat.not_le.mpr hfin
  have hZ : Zero.state < state.Error := by decide
  have hZz : Zero.coef.IsZero = true := by decide
  have hOne : One.state < state.Error := by decide
  have key : ∀ n : Int, 1 ≤ n →
      PowInt K (Nat.log 2 n.natAbs + 1) self n = some (if n = 1 then self else Zero) :=
    fun n h1 => PowInt_zero_coef K _ self n hfin hz h1 (lt_two_pow_log n h1)
  have hres : ∀ n : Int, (if n = 1 then self else Zero).state < state.Error ∧
      (if n = 1 then self else Zero).coef.IsZero = true := by
    intro n
    split_ifs
    · exact ⟨hfin, hz⟩
    · exact ⟨hZ, hZz⟩
  refine ⟨?_, ?_, ?_⟩
  · intro n h1 _
    exact ⟨_, fun fuel hle => PowInt_le K _ fuel self n _ hle (key n h1), hres n⟩
  · intro n h1 h2 fuel hle
    have hmax : n ≤ maxInt := by unfold maxInt; omega
    have hk := key (-n) (by omega)
    rw [Int.natAbs_neg] at hk
    apply PowInt_le K (Nat.log 2 n.natAbs + 1 + 1) fuel self n _ hle
    rw [PowInt]
    simp only [h', if_false, h2, if_true, negInt_eq_neg n h1 hmax, hk]
    rw [Div_of_zero_divisor K One _ hOne (hres (-n)).1 (hres (-n)).2]
  · intro fuel
    simp [PowInt, h']

/-- Witness for C20: the negative zero with exponent 3 raised to the powers
5, -5 and 0. -/
theorem PowInt_zero_base_witness :
    (∃ r, (∀ fuel, Nat.log 2 (Int.natAbs 5) + 1 ≤ fuel →
        PowInt failKernel fuel ⟨⟨0, 0⟩, 3, state.Neg⟩ 5 = some r) ∧
      r.state < state.Error ∧ r.coef.IsZero = true) ∧
    PowInt failKernel 4 ⟨⟨0, 0⟩, 3, state.Neg⟩ (-5)
      = some (Dec128.ofState state.DivisionByZero) ∧
    PowInt failKernel 1 ⟨⟨0, 0⟩, 3, state.Neg⟩ 0 = some One :=
  ⟨(PowInt_zero_base failKernel ⟨⟨0, 0⟩, 3, state.Neg⟩ (by decide) (by decide)).1 5
      (by decide) (by decide),
   (PowInt_zero_base failKernel ⟨⟨0, 0⟩, 3, state.Neg⟩ (by decide) (by decide)).2.1 (-5)
      (by decide) (by decide) 4 (by simp [Nat.log]),
   (PowInt_zero_base failKernel ⟨⟨0, 0⟩, 3, state.Neg⟩ (by decide) (by decide)).2.2 0⟩

/-! ## Commutativity of addition -/

theorem Add_comm_of_symmetric (K : Kernel) (hsym : ∀ x y, K.tryAdd x y = K.tryAdd y x)
    (a b : Dec128) (ha : a.state < state.Error) (hb : b.state < state.Error) :
    Add K a b = Add K b a := by
  have ha' : ¬ a.state ≥ state.Error := Nat.not_le.mpr ha
  have hb' : ¬ b.state ≥ state.Error := Nat.not_le.mpr hb
  unfold Add
  rw [if_neg ha', if_neg hb', if_neg hb', if_neg ha', hsym b a,
    hsym (K.Canonical b) (K.Canonical a)]

theorem tryAdd_symmetric (x y : Dec128) : tryAdd x y = tryAdd y x := by
  unfold tryAdd
  rw [max_comm y.exp x.exp]
  cases scaleCoef x (max x.exp y.exp) with
  | none =>
    cases scaleCoef y (max x.exp y.exp) <;> rfl
  | some ca =>
    cases scaleCoef y (max x.exp y.exp) with
    | none => rfl
    | some cb =>
      simp only
      by_cases hs : x.state = y.state
      · rw [if_pos hs, if_pos hs.symm, Nat.add_comm cb ca, hs]
      · have hs' : ¬ y.state = x.state := fun h => hs h.symm
        rw [if_neg hs, if_neg hs']
        rcases Nat.lt_trichotomy ca cb with h | h | h
        · rw [if_neg (Nat.lt_asymm h), if_pos h, if_pos h]
        · subst h
          simp only [Nat.lt_irrefl, if_false]
        · rw [if_pos h, if_neg (Nat.lt_asymm h), if_pos h]

/-- C18. `Add` is commutative on finite values: with the fast attempt and the
canonical form modelled from the spec, `a.Add(b)` and `b.Add(a)` are the same
value (coefficient, exponent and state) or both the Overflow marker, whether
the fast attempt or the canonical retry produces it. -/
theorem Add_comm_finite (a b : Dec128) (ha : a.state < state.Error)
    (hb : b.state < state.Error) :
    Add specKernel a b = Add specKernel b a :=
  Add_comm_of_symmetric specKernel tryAdd_symmetric a b ha hb

/-- Witness for C18: `1.23 + 4.56 = 5.79` in both orders, `1.23 + (-4)` in
both orders, a sum produced by the canonical retry, and an overflow. -/
theorem Add_comm_finite_witness :
    Add specKernel ⟨⟨123, 0⟩, 2, state.Default⟩ ⟨⟨456, 0⟩, 2, state.Default⟩
      = Add specKernel ⟨⟨456, 0⟩, 2, state.Default⟩ ⟨⟨123, 0⟩, 2, state.Default⟩ ∧
    Add specKernel ⟨⟨123, 0⟩, 2, state.Default⟩ ⟨⟨456, 0⟩, 2, state.Default⟩
      = ⟨⟨579, 0⟩, 2, state.Default⟩ ∧
    Add specKernel ⟨⟨123, 0⟩, 2, state.Default⟩ ⟨⟨4, 0⟩, 0, state.Neg⟩
      = Add specKernel ⟨⟨4, 0⟩, 0, state.Neg⟩ ⟨⟨123, 0⟩, 2, state.Default⟩ ∧
    Add specKernel ⟨⟨123, 0⟩, 2, state.Default⟩ ⟨⟨4, 0⟩, 0, state.Neg⟩
      = ⟨⟨277, 0⟩, 2, state.Neg⟩ ∧
    Add specKernel ⟨⟨2 ^ 63, 2 ^ 63⟩, 0, state.Default⟩ ⟨⟨10, 0⟩, 1, state.Default⟩
      = Add specKernel ⟨⟨10, 0⟩, 1, state.Default⟩ ⟨⟨2 ^ 63, 2 ^ 63⟩, 0, state.Default⟩ ∧
    Add specKernel ⟨⟨2 ^ 63, 2 ^ 63⟩, 0, state.Default⟩ ⟨⟨10, 0⟩, 1, state.Default⟩
      = ⟨⟨2 ^ 63 + 1, 2 ^ 63⟩, 0, state.Default⟩ ∧
    Add specKernel ⟨⟨2 ^ 64 - 1, 2 ^ 64 - 1⟩, 0, state.Default⟩ ⟨⟨1, 0⟩, 0, state.Default⟩
      = Add specKernel ⟨⟨1, 0⟩, 0, state.Default⟩ ⟨⟨2 ^ 64 - 1, 2 ^ 64 - 1⟩, 0, state.Default⟩ ∧
    Add specKernel ⟨⟨2 ^ 64 - 1, 2 ^ 64 - 1⟩, 0, state.Default⟩ ⟨⟨1, 0⟩, 0, state.Default⟩
      = Dec128.ofState state.Overflow :=
  ⟨Add_comm_finite _ _ (by decide) (by decide), by decide,
   Add_comm_finite _ _ (by decide) (by decide), by decide,
   Add_comm_finite _ _ (by decide) (by decide), by decide,
   Add_comm_finite _ _ (by decide) (by decide), by decide⟩

/-! ## Errors of nested multiplications in `PowInt` -/

theorem PowIntTrace_fst (K : Kernel) :
    ∀ (fuel : Nat) (self : Dec128) (n : Int),
      (PowIntTrace K fuel self n).map Prod.fst = PowInt K fuel self n := by
  intro fuel
  induction fuel with
  | zero => intro self n; rfl
  | succ fuel ih =>
    intro self n
    rw [PowIntTrace, PowInt]
    split_ifs with h1 h2 h3 h4 h5
    · rfl
    · rw [← ih self (negInt n)]
      cases PowIntTrace K fuel self (negInt n) <;> rfl
    · rfl
    · rfl
    · rw [← ih (Mul K self self) (n / 2)]
      cases PowIntTrace K fuel (Mul K self self) (n / 2) <;> rfl
    · rw [← ih (Mul K self self) ((n - 1) / 2)]
      cases PowIntTrace K fuel (Mul K self self) ((n - 1) / 2) <;> rfl

theorem PowIntTrace_of_error (K : Kernel) (fuel : Nat) (self : Dec128) (n : Int)
    (r : Dec128) (t : List Dec128) (herr : state.Error ≤ self.state)
    (h : PowIntTrace K fuel self n = some (r, t)) : r = self ∧ t = [] := by
  cases fuel with
  | zero => simp [PowIntTrace] at h
  | succ fuel =>
    have h' : self.state ≥ state.Error := herr
    rw [PowIntTrace, if_pos h'] at h
    simp only [Option.some.injEq, Prod.mk.injEq] at h
    exact ⟨h.1.symm, h.2.symm⟩

theorem isError_iff (d : Dec128) : isError d = true ↔ state.Error ≤ d.state := by
  simp [isError]

theorem PowIntTrace_first_error (K : Kernel) :
    ∀ (fuel : Nat) (self : Dec128) (n : Int) (r : Dec128) (t : List Dec128),
      PowIntTrace K fuel self n = some (r, t) →
      ∀ e, t.find? isError = some e → r = e := by
  intro fuel
  induction fuel with
  | zero =>
    intro self n r t h
    simp [PowIntTrace] at h
  | succ fuel ih =>
    intro self n r t h e he
    have hOne : One.state < state.Error := by decide
    rw [PowIntTrace] at h
    split_ifs at h with h1 h2 h3 h4 h5
    · simp only [Option.some.injEq, Prod.mk.injEq] at h
      rw [← h.2] at he
      simp at he
    · cases hin : PowIntTrace K fuel self (negInt n) with
      | none => rw [hin] at h; simp at h
      | some x =>
        obtain ⟨r', t'⟩ := x
        rw [hin] at h
        simp only [Option.some.injEq, Prod.mk.injEq] at h
        obtain ⟨hr, ht⟩ := h
        subst hr ht
        have hr := ih _ _ _ _ hin e he
        subst hr
        exact Div_of_error_divisor K One r' hOne ((isError_iff r').mp (List.find?_some he))
    · simp only [Option.some.injEq, Prod.mk.injEq] at h
      rw [← h.2] at he
      simp at he
    · simp only [Option.some.injEq, Prod.mk.injEq] at h
      rw [← h.2] at he
      simp at he
    · cases hin : PowIntTrace K fuel (Mul K self self) (n / 2) with
      | none => rw [hin] at h; simp at h
      | some x =>
        obtain ⟨r', t'⟩ := x
        rw [hin] at h
        simp only [Option.some.injEq, Prod.mk.injEq] at h
        obtain ⟨hr, ht⟩ := h
        subst hr ht
        by_cases hm : isError (Mul K self self) = true
        · rw [List.find?_cons_of_pos _ hm] at he
          have he' : Mul K self self = e := Option.some.inj he
          rw [← he']
          exact (PowIntTrace_of_error K fuel _ _ _ _ ((isError_iff _).mp hm) hin).1
        · rw [List.find?_cons_of_neg _ hm] at he
          exact ih _ _ _ _ hin e he
    · cases hin : PowIntTrace K fuel (Mul K self self) ((n - 1) / 2) with
      | none => rw [hin] at h; simp at h
      | some x =>
        obtain ⟨r', t'⟩ := x
        rw [hin] at h
        simp only [Option.some.injEq, Prod.mk.injEq] at h
        obtain ⟨hr, ht⟩ := h
        subst hr ht
        by_cases hm : isError (Mul K self self) = true
        · rw [List.find?_cons_of_pos _ hm] at he
          have he' : Mul K self self = e := Option.some.inj he
          rw [← he', (PowIntTrace_of_error K fuel _ _ _ _ ((isError_iff _).mp hm) hin).1]
          exact Mul_of_error_left K _ _ ((isError_iff _).mp hm)
        · rw [List.find?_cons_of_neg _ hm, List.find?_append] at he
          cases hft : List.find? isError t' with
          | none =>
            rw [hft] at he
            simp only [Option.or] at he
            by_cases hx : isError (Mul K r' self) = true
            · rw [List.find?_cons_of_pos _ hx] at he
              exact Option.some.inj he
            · rw [List.find?_cons_of_neg _ hx] at he
              simp at he
          | some e' =>
            rw [hft] at he
            simp only [Option.or] at he
            have hee : e' = e := Option.some.inj he
            subst hee
            have hr := ih _ _ _ _ hin e' hft
            subst hr
            exact Mul_of_error_left K _ _ ((isError_iff _).mp (List.find?_some hft))

theorem PowInt_of_square_error (K : Kernel) (self : Dec128) (n : Int)
    (hfin : self.state < state.Error) (herr : state.Error ≤ (Mul K self self).state)
    (h2 : 2 ≤ n) : PowInt K 2 self n = some (Mul K self self) := by
  have h' : ¬ self.state ≥ state.Error := Nat.not_le.mpr hfin
  have herr' : (Mul K self self).state ≥ state.Error := herr
  have hneg : ¬ n < 0 := by omega
  have hn0 : ¬ n = 0 := by omega
  have hn1 : ¬ n = 1 := by omega
  have hin : ∀ m : Int, PowInt K 1 (Mul K self self) m = some (Mul K self self) := by
    intro m
    rw [PowInt, if_pos herr']
  rw [PowInt]
  simp only [h', if_false, hneg, hn0, hn1, hin]
  split_ifs
  · rfl
  · rw [Mul_of_error_left K _ _ herr]

theorem PowIntTrace_head (K : Kernel) (fuel : Nat) (self : Dec128) (n : Int) (r : Dec128)
    (t : List Dec128) (hfin : self.state < state.Error) (h2 : 2 ≤ n)
    (h : PowIntTrace K fuel self n = some (r, t)) : t.head? = some (Mul K self self) := by
  have h' : ¬ self.state ≥ state.Error := Nat.not_le.mpr hfin
  have hneg : ¬ n < 0 := by omega
  have hn0 : ¬ n = 0 := by omega
  have hn1 : ¬ n = 1 := by omega
  cases fuel with
  | zero => simp [PowIntTrace] at h
  | succ fuel =>
    rw [PowIntTrace] at h
    simp only [h', if_false, hneg, hn0, hn1] at h
    split_ifs at h
    · cases hin : PowIntTrace K fuel (Mul K self self) (n / 2) with
      | none => rw [hin] at h; simp at h
      | some x =>
        rw [hin] at h
        simp only [Option.some.injEq, Prod.mk.injEq] at h
        rw [← h.2]
        rfl
    · cases hin : PowIntTrace K fuel (Mul K self self) ((n - 1) / 2) with
      | none => rw [hin] at h; simp at h
      | some x =>
        rw [hin] at h
        simp only [Option.some.injEq, Prod.mk.injEq] at h
        rw [← h.2]
        rfl

theorem PowIntTrace_head_neg (K : Kernel) (fuel : Nat) (self : Dec128) (n : Int)
    (r : Dec128) (t : List Dec128) (hfin : self.state < state.Error) (hlo : minInt < n)
    (h2 : n ≤ -2) (h : PowIntTrace K fuel self n = some (r, t)) :
    t.head? = some (Mul K self self) := by
  have h' : ¬ self.state ≥ state.Error := Nat.not_le.mpr hfin
  have hneg : n < 0 := by omega
  have hmax : n ≤ maxInt := by unfold maxInt; omega
  cases fuel with
  | zero => simp [PowIntTrace] at h
  | succ fuel =>
    rw [PowIntTrace] at h
    simp only [h', if_false, hneg, if_true, negInt_eq_neg n hlo hmax] at h
    cases hin : PowIntTrace K fuel self (-n) with
    | none => rw [hin] at h; simp at h
    | some x =>
      obtain ⟨r', t'⟩ := x
      rw [hin] at h
      simp only [Option.some.injEq, Prod.mk.injEq] at h
      rw [← h.2]
      exact PowIntTrace_head K fuel self (-n) r' t' hfin (by omega) hin

theorem PowInt_error_chain (K : Kernel) (self : Dec128) (n : Int)
    (hfin : self.state < state.Error) (hlo : minInt < n) (hhi : n ≤ maxInt)
    (hn : 2 ≤ n ∨ n ≤ -2) :
    (state.Error ≤ (Mul K self self).state →
      ∀ fuel, 3 ≤ fuel → PowInt K fuel self n = some (Mul K self self)) ∧
    (∀ fuel, Nat.log 2 n.natAbs + 2 ≤ fuel →
      ∃ r t, PowIntTrace K fuel self n = some (r, t) ∧ PowInt K fuel self n = some r ∧
        t.head? = some (Mul K self self) ∧
        ∀ e, t.find? isError = some e → r = e) := by
  have h' : ¬ self.state ≥ state.Error := Nat.not_le.mpr hfin
  have hOne : One.state < state.Error := by decide
  constructor
  · intro herr fuel hfuel
    apply PowInt_le K 3 fuel self n _ hfuel
    rcases hn with h2 | h2
    · exact PowInt_succ K _ _ _ _ (PowInt_of_square_error K self n hfin herr h2)
    · have hneg : n < 0 := by omega
      rw [PowInt]
      simp only [h', if_false, hneg, if_true, negInt_eq_neg n hlo hhi,
        PowInt_of_square_error K self (-n) hfin herr (by omega)]
      rw [Div_of_error_divisor K One _ hOne herr]
  · intro fuel hfuel
    obtain ⟨r, hr⟩ := PowInt_returns K self n hlo hhi
    have hr' := PowInt_le K _ fuel self n r hfuel hr
    have hfst := PowIntTrace_fst K fuel self n
    rw [hr'] at hfst
    cases htr : PowIntTrace K fuel self n with
    | none => rw [htr] at hfst; simp at hfst
    | some x =>
      obtain ⟨r', t⟩ := x
      rw [htr] at hfst
      simp only [Option.map_some', Option.some.injEq] at hfst
      subst hfst
      refine ⟨r', t, rfl, hr', ?_, PowIntTrace_first_error K fuel self n r' t htr⟩
      rcases hn with h2 | h2
      · exact PowIntTrace_head K fuel self n r' t hfin h2 htr
      · exact PowIntTrace_head_neg K fuel self n r' t hfin hlo h2 htr

/-- C19. `PowInt` returns whatever error a nested multiplication produced: for
a finite receiver and a 64-bit `n` with `n ≥ 2`, or `n ≤ -2` other than the
minimum integer, if `self.Mul(self)` is an error marker then `PowInt` returns
exactly that marker; and in general the call returns, the first
multiplication it makes is `self.Mul(self)`, and the first error marker among
the results of its multiplications, if there is one, is the value returned
(through the reciprocal `One.Div(...)` when `n` is negative). At the minimum
integer, which is also at most -2, the call returns under no depth bound, so
there it returns no marker at all. -/
theorem PowInt_returns_nested_error (K : Kernel) (self : Dec128)
    (hfin : self.state < state.Error) :
    (∀ n : Int, minInt < n → n ≤ maxInt → (2 ≤ n ∨ n ≤ -2) →
      (state.Error ≤ (Mul K self self).state →
        ∀ fuel, 3 ≤ fuel → PowInt K fuel self n = some (Mul K self self)) ∧
      (∀ fuel, Nat.log 2 n.natAbs + 2 ≤ fuel →
        ∃ r t, PowIntTrace K fuel self n = some (r, t) ∧ PowInt K fuel self n = some r ∧
          t.head? = some (Mul K self self) ∧
          ∀ e, t.find? isError = some e → r = e)) ∧
    (minInt ≤ -2 ∧ ∀ fuel, PowInt K fuel self minInt = none) :=
  ⟨fun n hlo hhi hn => PowInt_error_chain K self n hfin hlo hhi hn,
   by decide, PowInt_minInt K self hfin⟩

/-- Evaluation for C19: `2^127` is finite and its square is the Overflow
marker; its power -3 is that marker, while at the minimum integer `PowInt`
returns under no depth bound. -/
theorem PowInt_returns_nested_error_witness :
    Mul failKernel ⟨⟨0, 2 ^ 63⟩, 0, state.Default⟩ ⟨⟨0, 2 ^ 63⟩, 0, state.Default⟩
      = Dec128.ofState state.Overflow ∧
    PowInt failKernel 3 ⟨⟨0, 2 ^ 63⟩, 0, state.Default⟩ (-3)
      = some (Mul failKernel ⟨⟨0, 2 ^ 63⟩, 0, state.Default⟩ ⟨⟨0, 2 ^ 63⟩, 0, state.Default⟩) ∧
    PowInt failKernel 3 ⟨⟨0, 2 ^ 63⟩, 0, state.Default⟩ 3
      = some (Dec128.ofState state.Overflow) ∧
    (∀ fuel, PowInt failKernel fuel ⟨⟨0, 2 ^ 63⟩, 0, state.Default⟩ minInt = none) :=
  ⟨by decide,
   ((PowInt_returns_nested_error failKernel ⟨⟨0, 2 ^ 63⟩, 0, state.Default⟩ (by decide)).1
      (-3) (by decide) (by decide) (Or.inr (by decide))).1 (by decide) 3 (le_refl 3),
   by decide,
   (PowInt_returns_nested_error failKernel ⟨⟨0, 2 ^ 63⟩, 0, state.Default⟩
      (by decide)).2.2⟩

end dec128
